import Mathlib

/-!
Verification development for the JSON-to-Excel record-normalization engine
(`json_to_excel_converter.py`).

The embedding models JSON values as `JValue` (numbers as `Int`; the claims
under study do not involve floating-point values), Python `dict`s as ordered
association lists with Python's insert-or-update semantics (`pyDictOfList`),
and fallible attribute access (`.get` on a non-`dict`, slicing a non-string,
hashing an unhashable key) as `Option`, where `none` models a raised
exception.
-/

/-- A JSON value as held in memory after `json.loads`. -/
inductive JValue where
  | null : JValue
  | bool : Bool → JValue
  | num : Int → JValue
  | str : String → JValue
  | obj : List (String × JValue) → JValue
  | arr : List JValue → JValue

/-- A parsed record: a Python `dict` keyed by strings (an ordered mapping). -/
abbrev Rec := List (String × JValue)

/-- `isinstance(v, dict)`. -/
def JValue.isObjB : JValue → Bool
  | .obj _ => true
  | _ => false

/-- `isinstance(v, (dict, list))`: a container (non-leaf) value. -/
def JValue.isContainerB : JValue → Bool
  | .obj _ => true
  | .arr _ => true
  | _ => false

/-- Python dict lookup `d.get(key)` over an ordered association list. -/
def lookupS {α : Type} : List (String × α) → String → Option α
  | [], _ => none
  | (k, v) :: rest, key => if k == key then some v else lookupS rest key

/-- Python `d[k] = v` on a dict represented as an ordered association list:
update the value in place if the key exists, otherwise append at the end. -/
def pyInsert {α : Type} : List (String × α) → String → α → List (String × α)
  | [], k, v => [(k, v)]
  | (k', v') :: rest, k, v =>
      if k' == k then (k', v) :: rest else (k', v') :: pyInsert rest k v

/-- Python `dict(items)`: fold the item list with insert-or-update. -/
def pyDictOfList {α : Type} (l : List (String × α)) : List (String × α) :=
  l.foldl (fun acc p => pyInsert acc p.1 p.2) []

mutual

/-- Python `repr` of a value (used by `str` on containers).  String quoting is
simplified to single quotes without escape processing; none of the claims
depends on the exact text. -/
def pyRepr : JValue → String
  | .null => "None"
  | .bool b => if b then "True" else "False"
  | .num n => toString n
  | .str s => "'" ++ s ++ "'"
  | .obj fs => "\x7b" ++ pyReprFields fs ++ "\x7d"
  | .arr l => "[" ++ pyReprElems l ++ "]"

/-- Comma-separated `repr` of a dict's items. -/
def pyReprFields : List (String × JValue) → String
  | [] => ""
  | (k, v) :: rest =>
      "'" ++ k ++ "': " ++ pyRepr v ++
        (match rest with
         | [] => ""
         | _ => ", " ++ pyReprFields rest)

/-- Comma-separated `repr` of a list's elements. -/
def pyReprElems : List JValue → String
  | [] => ""
  | v :: rest =>
      pyRepr v ++
        (match rest with
         | [] => ""
         | _ => ", " ++ pyReprElems rest)

end

/-- Python `str(v)`: identity on strings, `None`/`True`/`False` for the
literals, decimal for numbers, `repr` for containers. -/
def pyStr : JValue → String
  | .null => "None"
  | .bool b => if b then "True" else "False"
  | .num n => toString n
  | .str s => s
  | .obj fs => pyRepr (.obj fs)
  | .arr l => pyRepr (.arr l)

/-- `f"{parent_key}{sep}{k}" if parent_key else k` from `flatten_dict`. -/
def mkKey (parent sep k : String) : String :=
  if parent = "" then k else parent ++ sep ++ k

mutual

/-- The item loop of `JSONFlattener.flatten_dict`: one output item list per
key/value entry of the dict, concatenated in iteration order. -/
def flattenObj : List (String × JValue) → String → String → List (String × JValue)
  | [], _, _ => []
  | (k, v) :: rest, parent, sep =>
      flattenVal v (mkKey parent sep k) sep ++ flattenObj rest parent sep

/-- Items contributed by a single value `v` under the already-built key
`new_key` (the body of the `if/elif/else` in `flatten_dict`). -/
def flattenVal : JValue → String → String → List (String × JValue)
  | .obj fs, newKey, sep => flattenObj fs newKey sep
  | .arr l, newKey, sep =>
      if l.length = 0 then [(newKey, .null)]
      else if l.all JValue.isObjB then
        flattenDicts l 0 newKey sep ++
          (if 3 < l.length then [(newKey ++ "_count", .num l.length)] else [])
      else
        [(newKey, .str (String.intercalate ", " (l.map pyStr)))]
  | v, newKey, _ => [(newKey, v)]

/-- `for i, item in enumerate(v[:3])`: flatten the list elements with numbered
keys, emitting only indices 0, 1, 2 (all elements are dicts on this path). -/
def flattenDicts : List JValue → Nat → String → String → List (String × JValue)
  | [], _, _, _ => []
  | .obj fs :: rest, i, newKey, sep =>
      (if i < 3 then flattenObj fs (newKey ++ "_" ++ toString i) sep else []) ++
        flattenDicts rest (i + 1) newKey sep
  | _ :: rest, i, newKey, sep => flattenDicts rest (i + 1) newKey sep

end

/-- The flattened row: `flatten_dict` = `dict(items)` over the emitted items. -/
def flatten_dict (d : Rec) (parent_key sep : String) : List (String × JValue) :=
  pyDictOfList (flattenObj d parent_key sep)

mutual

/-- Structural equality of JSON values, modelling Python `==` on parsed JSON
data (no float/bool-int coercions arise: numbers are embedded as `Int` and the
instrument-type keys compared in the code are strings). -/
def beqJ : JValue → JValue → Bool
  | .null, .null => true
  | .bool a, .bool b => a == b
  | .num a, .num b => a == b
  | .str a, .str b => a == b
  | .obj a, .obj b => beqFields a b
  | .arr a, .arr b => beqElems a b
  | _, _ => false

/-- Equality of dict item lists. -/
def beqFields : List (String × JValue) → List (String × JValue) → Bool
  | [], [] => true
  | (k, v) :: r, (k', v') :: r' => k == k' && beqJ v v' && beqFields r r'
  | _, _ => false

/-- Equality of JSON array element lists. -/
def beqElems : List JValue → List JValue → Bool
  | [], [] => true
  | v :: r, v' :: r' => beqJ v v' && beqElems r r'
  | _, _ => false

end

instance : BEq JValue := ⟨beqJ⟩

mutual

/-- `beqJ` is reflexive. -/
def beqJ_refl : ∀ v : JValue, beqJ v v = true
  | .null => rfl
  | .bool b => by simp [beqJ]
  | .num n => by simp [beqJ]
  | .str s => by simp [beqJ]
  | .obj fs => by simp [beqJ]; exact beqFields_refl fs
  | .arr l => by simp [beqJ]; exact beqElems_refl l

/-- `beqFields` is reflexive. -/
def beqFields_refl : ∀ fs : List (String × JValue), beqFields fs fs = true
  | [] => rfl
  | (k, v) :: r => by
      simp [beqFields]
      exact ⟨beqJ_refl v, beqFields_refl r⟩

/-- `beqElems` is reflexive. -/
def beqElems_refl : ∀ l : List JValue, beqElems l l = true
  | [] => rfl
  | v :: r => by
      simp [beqElems]
      exact ⟨beqJ_refl v, beqElems_refl r⟩

end

mutual

/-- `beqJ` implies equality. -/
def eq_of_beqJ : ∀ a b : JValue, beqJ a b = true → a = b
  | .null, .null, _ => rfl
  | .bool a, .bool b, h => by simp [beqJ] at h; simp [h]
  | .num a, .num b, h => by simp [beqJ] at h; simp [h]
  | .str a, .str b, h => by simp [beqJ] at h; simp [h]
  | .obj a, .obj b, h => by
      simp [beqJ] at h
      exact congrArg JValue.obj (eq_of_beqFields a b h)
  | .arr a, .arr b, h => by
      simp [beqJ] at h
      exact congrArg JValue.arr (eq_of_beqElems a b h)

/-- `beqFields` implies equality. -/
def eq_of_beqFields : ∀ a b : List (String × JValue), beqFields a b = true → a = b
  | [], [], _ => rfl
  | (k, v) :: r, (k', v') :: r', h => by
      simp [beqFields] at h
      obtain ⟨⟨hk, hv⟩, hr⟩ := h
      rw [hk, eq_of_beqJ v v' hv, eq_of_beqFields r r' hr]

/-- `beqElems` implies equality. -/
def eq_of_beqElems : ∀ a b : List JValue, beqElems a b = true → a = b
  | [], [], _ => rfl
  | v :: r, v' :: r', h => by
      simp [beqElems] at h
      rw [eq_of_beqJ v v' h.1, eq_of_beqElems r r' h.2]

end

instance : LawfulBEq JValue where
  eq_of_beq h := eq_of_beqJ _ _ h
  rfl := beqJ_refl _

instance : DecidableEq JValue := fun a b =>
  decidable_of_iff (beqJ a b = true) ⟨eq_of_beqJ a b, fun h => h ▸ beqJ_refl a⟩

/-- Field lists of one entry of `INSTRUMENT_SPECIFIC_FIELDS`. -/
structure SpecificConfig where
  Derived : List String
  Attributes : List String
deriving DecidableEq

/-- `JSONFlattener.COMMON_FIELDS`: the four groups of common field names. -/
def COMMON_FIELDS : List (String × List String) :=
  [("Header", ["AssetClass", "InstrumentType", "UseCase", "Level"]),
   ("Identifier", ["UPI", "Status", "StatusReason", "LastUpdateDateTime"]),
   ("Derived_Common", ["ClassificationType", "ShortName", "UnderlierName",
                       "UnderlyingAssetType", "CFIDeliveryType"]),
   ("Attributes_Common", ["ReferenceRate", "BaseProduct", "SubProduct",
                          "AdditionalSubProduct", "DeliveryType"])]

/-- `COMMON_FIELDS[k]` (the code only indexes existing keys). -/
def commonFields (k : String) : List String := (lookupS COMMON_FIELDS k).getD []

/-- The `'Default'` entry of `INSTRUMENT_SPECIFIC_FIELDS`. -/
def DEFAULT_CONFIG : SpecificConfig :=
  { Derived := ["CFIOptionStyleandType"],
    Attributes := ["OtherReferenceRate", "OtherBaseProduct", "OtherSubProduct",
                   "OtherAdditionalSubProduct", "ReturnorPayoutTrigger",
                   "OptionType", "OptionExerciseStyle", "ValuationMethodorTrigger"] }

/-- `JSONFlattener.INSTRUMENT_SPECIFIC_FIELDS`. -/
def INSTRUMENT_SPECIFIC_FIELDS : List (String × SpecificConfig) :=
  [("Swap", { Derived := [],
              Attributes := ["OtherReferenceRate", "OtherBaseProduct", "OtherSubProduct",
                             "OtherAdditionalSubProduct", "ReturnorPayoutTrigger"] }),
   ("Forward", { Derived := [], Attributes := ["ReturnorPayoutTrigger"] }),
   ("Option", { Derived := ["CFIOptionStyleandType"],
                Attributes := ["OptionType", "OptionExerciseStyle", "ValuationMethodorTrigger"] }),
   ("Future", { Derived := [], Attributes := ["ExpiryDate", "SettlementMethod"] }),
   ("Default", DEFAULT_CONFIG)]

/-- `record.get(key, {})` followed by attribute access on the result: yields
the item list when the value is a dict, `{}` when the key is absent, and
raises (`none`) when the value is present but not a dict. -/
def jGetSection (r : Rec) (key : String) : Option Rec :=
  match lookupS r key with
  | none => some []
  | some (.obj fs) => some fs
  | some _ => none

/-- `JSONFlattener.get_instrument_type`:
`record.get('Header', {}).get('InstrumentType', 'Default')`.  Note the raw
`InstrumentType` value is returned unchanged whenever it is present. -/
def get_instrument_type (record : Rec) : Option JValue :=
  (jGetSection record "Header").map
    (fun fs => (lookupS fs "InstrumentType").getD (.str "Default"))

/-- `INSTRUMENT_SPECIFIC_FIELDS.get(instrument_type, INSTRUMENT_SPECIFIC_FIELDS['Default'])`:
an unhashable key (dict/list) raises `TypeError`; any other key misses the
string-keyed table unless it is one of the known type names. -/
def specificConfigOf : JValue → Option SpecificConfig
  | .obj _ => none
  | .arr _ => none
  | .str s => some ((lookupS INSTRUMENT_SPECIFIC_FIELDS s).getD DEFAULT_CONFIG)
  | _ => some DEFAULT_CONFIG

/-- `JSONFlattener.extract_key_fields`. -/
def extract_key_fields (record : Rec) (include_all_fields : Bool) :
    Option (List (String × JValue)) := do
  let header ← jGetSection record "Header"
  let identifier ← jGetSection record "Identifier"
  let derived ← jGetSection record "Derived"
  let attributes ← jGetSection record "Attributes"
  let instrument_type ← get_instrument_type record
  let specific_config ← specificConfigOf instrument_type
  let specific_config := if include_all_fields then DEFAULT_CONFIG else specific_config
  pure (pyDictOfList
    ([("TemplateVersion", (lookupS record "TemplateVersion").getD (.str ""))] ++
     (commonFields "Header").map (fun f => (f, (lookupS header f).getD (.str ""))) ++
     (commonFields "Identifier").map (fun f => (f, (lookupS identifier f).getD (.str ""))) ++
     (commonFields "Derived_Common").map (fun f => (f, (lookupS derived f).getD (.str ""))) ++
     (commonFields "Attributes_Common").map (fun f => (f, (lookupS attributes f).getD (.str ""))) ++
     specific_config.Derived.map (fun f => (f, (lookupS derived f).getD (.str ""))) ++
     specific_config.Attributes.map (fun f => (f, (lookupS attributes f).getD (.str "")))))

/-- `JSONFlattener.extract_key_fields_for_instrument` (note: the
instrument-specific Derived fields come before the common Attributes). -/
def extract_key_fields_for_instrument (record : Rec) (instrument_type : JValue) :
    Option (List (String × JValue)) := do
  let header ← jGetSection record "Header"
  let identifier ← jGetSection record "Identifier"
  let derived ← jGetSection record "Derived"
  let attributes ← jGetSection record "Attributes"
  let specific_config ← specificConfigOf instrument_type
  pure (pyDictOfList
    ([("TemplateVersion", (lookupS record "TemplateVersion").getD (.str ""))] ++
     (commonFields "Header").map (fun f => (f, (lookupS header f).getD (.str ""))) ++
     (commonFields "Identifier").map (fun f => (f, (lookupS identifier f).getD (.str ""))) ++
     (commonFields "Derived_Common").map (fun f => (f, (lookupS derived f).getD (.str ""))) ++
     specific_config.Derived.map (fun f => (f, (lookupS derived f).getD (.str ""))) ++
     (commonFields "Attributes_Common").map (fun f => (f, (lookupS attributes f).getD (.str ""))) ++
     specific_config.Attributes.map (fun f => (f, (lookupS attributes f).getD (.str "")))))

/-- Hashability of a Python value: dicts and lists raise `TypeError` when used
as dict keys. -/
def hashableB (v : JValue) : Bool := !v.isContainerB

/-- One step of `ExcelGenerator.group_by_instrument_type`: the
`if instrument_type not in grouped / grouped[...].append(record)` body. -/
def insertGrouped : List (JValue × List Rec) → JValue → Rec → List (JValue × List Rec)
  | [], k, r => [(k, [r])]
  | (k', l) :: rest, k, r =>
      if k' == k then (k', l ++ [r]) :: rest else (k', l) :: insertGrouped rest k r

/-- The record loop of `group_by_instrument_type` with explicit accumulator. -/
def groupGo : List (JValue × List Rec) → List Rec → Option (List (JValue × List Rec))
  | acc, [] => some acc
  | acc, r :: rs => do
      let c ← get_instrument_type r
      if hashableB c then groupGo (insertGrouped acc c r) rs else none

/-- `ExcelGenerator.group_by_instrument_type`: a Python dict keyed by the
classifier value, in first-seen insertion order. -/
def group_by_instrument_type (records : List Rec) : Option (List (JValue × List Rec)) :=
  groupGo [] records

/-- Python `str.strip()` whitespace set (space, tab, LF, CR, VT, FF). -/
def isPySpace (c : Char) : Bool :=
  c == ' ' || c == '\t' || c == '\n' || c == '\r' || c == '\x0b' || c == '\x0c'

/-- Python `s.strip()` over the character list. -/
def pyStrip (l : List Char) : List Char :=
  ((l.dropWhile isPySpace).reverse.dropWhile isPySpace).reverse

/-- Python `s.split(ch)`: always returns at least one (possibly empty) part. -/
def pySplitCh (ch : Char) : List Char → List (List Char)
  | [] => [[]]
  | c :: rest =>
      match pySplitCh ch rest with
      | [] => [[]]
      | g :: gs => if c == ch then [] :: g :: gs else (c :: g) :: gs

/-- `s.startswith(single-character prefix)`. -/
def startsWithCh (l : List Char) (c : Char) : Bool :=
  match l with
  | [] => false
  | x :: _ => x == c

/-- The NDJSON loop of `JSONParser.parse_file`: parse each non-empty stripped
line in order; on the first failing line stop, keeping the records appended so
far and reporting failure (the Python `except ... pass` keeps `records`). -/
def ndjsonScan (loads : String → Except String JValue) :
    List (List Char) → List JValue × Bool
  | [] => ([], true)
  | ln :: rest =>
      let l := pyStrip ln
      if l.isEmpty then ndjsonScan loads rest
      else
        match loads (String.mk l) with
        | .ok v =>
            let p := ndjsonScan loads rest
            (v :: p.1, p.2)
        | .error _ => ([], false)

/-- The guard for attempting NDJSON:
`len(lines) > 1 or (len(lines) == 1 and lines[0].startswith('{'))`. -/
def ndjsonAttemptCond (lines : List (List Char)) : Bool :=
  decide (1 < lines.length) ||
    (lines.length == 1 && startsWithCh (lines.headD []) '{')

/-- `JSONParser.parse_file`, parameterized by the JSON decoder `loads`
(modelling `json.loads`; `.error` models `json.JSONDecodeError`).  The
returned `.error` models the `ValueError` raised at the end. -/
def parse_file (loads : String → Except String JValue) (content : String) :
    Except String (List JValue × String) :=
  let lines := pySplitCh '\n' (pyStrip content.data)
  let attempt := ndjsonAttemptCond lines
  let scanned := ndjsonScan loads lines
  if attempt && scanned.2 then .ok (scanned.1, "JSON Lines (NDJSON)")
  else
    let records0 := if attempt then scanned.1 else []
    match loads content with
    | .ok (.arr l) => .ok (l, "JSON Array")
    | .ok (.obj fs) => .ok ([.obj fs], "Single JSON Object")
    | .ok _ => .ok (records0, "Unknown")
    | .error e => .error ("Unable to parse JSON: " ++ e)

/-- The spec's step 2 ("parse the entire content as a single JSON document"),
written from the spec's words as the comparison target for claim C5: array
elements become the record sequence, an object becomes a singleton, a scalar
yields degenerate (empty) records, and a failure is the fatal `ParseError`. -/
def wholeDocResult (loads : String → Except String JValue) (content : String) :
    Except String (List JValue × String) :=
  match loads content with
  | .ok (.arr l) => .ok (l, "JSON Array")
  | .ok (.obj fs) => .ok ([.obj fs], "Single JSON Object")
  | .ok _ => .ok ([], "Unknown")
  | .error e => .error ("Unable to parse JSON: " ++ e)

mutual

/-- `json.dumps(v, ensure_ascii=False)` with default separators.  String
escaping is omitted; none of the claims depends on the exact text. -/
def jsonDumps : JValue → String
  | .null => "null"
  | .bool b => if b then "true" else "false"
  | .num n => toString n
  | .str s => "\"" ++ s ++ "\""
  | .obj fs => "\x7b" ++ jsonDumpsFields fs ++ "\x7d"
  | .arr l => "[" ++ jsonDumpsElems l ++ "]"

/-- Comma-separated serialization of dict items. -/
def jsonDumpsFields : List (String × JValue) → String
  | [] => ""
  | (k, v) :: rest =>
      "\"" ++ k ++ "\": " ++ jsonDumps v ++
        (match rest with
         | [] => ""
         | _ => ", " ++ jsonDumpsFields rest)

/-- Comma-separated serialization of list elements. -/
def jsonDumpsElems : List JValue → String
  | [] => ""
  | v :: rest =>
      jsonDumps v ++
        (match rest with
         | [] => ""
         | _ => ", " ++ jsonDumpsElems rest)

end

/-- A `for` loop collecting one result per element, aborting on the first
raised exception (`none`). -/
def mapO {α β : Type} (f : α → Option β) : List α → Option (List β)
  | [] => some []
  | x :: xs => do
      let y ← f x
      let ys ← mapO f xs
      pure (y :: ys)

/-- Python iteration `for x in v`: lists yield elements, strings yield
one-character strings, dicts yield their keys; other values raise. -/
def pyIter : JValue → Option (List JValue)
  | .arr l => some l
  | .str s => some (s.data.map (fun c => .str (String.singleton c)))
  | .obj fs => some (fs.map (fun p => .str p.1))
  | _ => none

/-- `v.get(...)` requires a dict: return its items or raise. -/
def asObjItems : JValue → Option Rec
  | .obj fs => some fs
  | _ => none

/-- One iteration of the `Attributes` loop in `_extract_cfi_data`: the three
columns contributed by attribute number `j+1` (raises unless the attribute is
a mapping). -/
def attrTriple (p : Nat × JValue) : Option (List (String × JValue)) := do
  let a ← asObjItems p.2
  pure [("Attr" ++ toString (p.1 + 1) ++ "_Name", (lookupS a "Name").getD (.str "")),
        ("Attr" ++ toString (p.1 + 1) ++ "_Code", (lookupS a "Code").getD (.str "")),
        ("Attr" ++ toString (p.1 + 1) ++ "_Value", (lookupS a "Value").getD (.str ""))]

/-- The per-CFI-entry row built by `ExcelGenerator._extract_cfi_data`. -/
def cfiEntryRow (upi : JValue) (instrument_type : JValue) (cfi : JValue) :
    Option (List (String × JValue)) := do
  let cf ← asObjItems cfi
  let category ← jGetSection cf "Category"
  let group ← jGetSection cf "Group"
  let attrsV := (lookupS cf "Attributes").getD (.arr [])
  let attrs ← pyIter attrsV
  let attrCols ← mapO attrTriple attrs.enum
  pure (pyDictOfList
    ([("UPI", upi),
      ("InstrumentType", instrument_type),
      ("CFI_Version", (lookupS cf "Version").getD (.str "")),
      ("CFI_VersionStatus", (lookupS cf "VersionStatus").getD (.str "")),
      ("CFI_Value", (lookupS cf "Value").getD (.str "")),
      ("CFI_Category_Code", (lookupS category "Code").getD (.str "")),
      ("CFI_Category_Value", (lookupS category "Value").getD (.str "")),
      ("CFI_Group_Code", (lookupS group "Code").getD (.str "")),
      ("CFI_Group_Value", (lookupS group "Value").getD (.str ""))] ++ attrCols.flatten))

/-- The rows contributed by one record (index `i`) in `_extract_cfi_data`. -/
def cfiRowsOfRecord (i : Nat) (record : Rec) : Option (List (List (String × JValue))) := do
  let identifier ← jGetSection record "Identifier"
  let upi := (lookupS identifier "UPI").getD (.str ("Record_" ++ toString i))
  let instrument_type ← get_instrument_type record
  let derived ← jGetSection record "Derived"
  let cfiList := (lookupS derived "CFI").getD (.arr [])
  let cfis ← pyIter cfiList
  mapO (cfiEntryRow upi instrument_type) cfis

/-- `ExcelGenerator._extract_cfi_data`. -/
def extract_cfi_data (records : List Rec) : Option (List (List (String × JValue))) := do
  let rss ← mapO (fun p => cfiRowsOfRecord p.1 p.2) records.enum
  pure rss.flatten

/-- Sheet-name cleaning for `smart_by_type`: first 28 raw characters, then
keep only alphanumerics/space/underscore/hyphen, then cap at 31. -/
def sanitizeSheetName (s : String) : String :=
  (((s.take 28).data.filter
      (fun c => c.isAlphanum || c == ' ' || c == '_' || c == '-')).take 31).asString

/-- `f"{instrument_type[:28]}"`: slicing requires a string group key (an int,
bool or None key raises `TypeError`); containers are never keys (unhashable). -/
def sheetNameOf : JValue → Option String
  | .str s => some (sanitizeSheetName s)
  | _ => none

/-- The `minimal` mode row: scalars pass through, containers are serialized to
JSON strings. -/
def minimalRow (record : Rec) : List (String × JValue) :=
  pyDictOfList (record.map
    (fun p => (p.1, if p.2.isContainerB then .str (jsonDumps p.2) else p.2)))

/-- One output sheet: a name and its rows. -/
abbrev Sheet := String × List (List (String × JValue))

/-- One iteration of the per-instrument-type sheet loop in `create_excel`
(`smart_by_type` mode): extract the type-specific rows and clean the sheet
name. -/
def typeSheetOf (p : JValue × List Rec) : Option Sheet := do
  let rows ← mapO (fun r => extract_key_fields_for_instrument r p.1) p.2
  let name ← sheetNameOf p.1
  pure (name, rows)

/-- `ExcelGenerator.create_excel`: builds the ordered sheet list handed to the
workbook writer, for one of the four modes (any unknown mode string falls to
the `else` branch, i.e. `minimal`, as in the source). -/
def create_excel (records : List Rec) (flatten_mode : String) : Option (List Sheet) :=
  if flatten_mode == "smart_by_type" then do
    let grouped ← group_by_instrument_type records
    let summary :=
      grouped.map (fun p =>
        [("Instrument Type", p.1), ("Record Count", JValue.num p.2.length)]) ++
      [[("Instrument Type", JValue.str "TOTAL"), ("Record Count", JValue.num records.length)]]
    let typeSheets ← mapO typeSheetOf grouped
    let cfi ← extract_cfi_data records
    pure ([("Summary", summary)] ++ typeSheets ++
      (if cfi.isEmpty then [] else [("CFI Details", cfi)]))
  else if flatten_mode == "smart" then do
    let main ← mapO (fun r => extract_key_fields r true) records
    let cfi ← extract_cfi_data records
    let flat := records.map (fun r => flatten_dict r "" "_")
    pure ([("Main Data", main)] ++
      (if cfi.isEmpty then [] else [("CFI Details", cfi)]) ++
      [("Full Data (Flattened)", flat)])
  else if flatten_mode == "full" then
    some [("Data", records.map (fun r => flatten_dict r "" "_"))]
  else
    some [("Data", records.map minimalRow)]

/-- Assoc lookup with JSON-value keys (Python dict keyed by classifier
values). -/
def lookupJ {β : Type} : List (JValue × β) → JValue → Option β
  | [], _ => none
  | (k, v) :: rest, key => if k == key then some v else lookupJ rest key

/-- `r` is classified under `k` by `get_instrument_type`. -/
def classifierIs (r : Rec) (k : JValue) : Bool :=
  match get_instrument_type r with
  | some c => c == k
  | none => false

/-- First-seen-order deduplication relative to already-seen keys. -/
def dedupNew (seen : List JValue) : List JValue → List JValue
  | [] => []
  | x :: xs => if seen.contains x then dedupNew seen xs else x :: dedupNew (seen ++ [x]) xs

/-- First-seen-order deduplication (Python dict key order). -/
def dedupFirstSeen (l : List JValue) : List JValue := dedupNew [] l

/-- The full ordered column list produced by `extract_key_fields` with
`include_all_fields=True`, read off the configuration tables. -/
def allIncludeAllFields : List String :=
  ["TemplateVersion"] ++ commonFields "Header" ++ commonFields "Identifier" ++
    commonFields "Derived_Common" ++ commonFields "Attributes_Common" ++
    DEFAULT_CONFIG.Derived ++ DEFAULT_CONFIG.Attributes

/-- The record section a projected field is read from (`none` for the
top-level `TemplateVersion`). -/
def sectionOfField (f : String) : Option String :=
  if (commonFields "Header").contains f then some "Header"
  else if (commonFields "Identifier").contains f then some "Identifier"
  else if ((commonFields "Derived_Common").contains f || DEFAULT_CONFIG.Derived.contains f) then
    some "Derived"
  else if ((commonFields "Attributes_Common").contains f ||
      DEFAULT_CONFIG.Attributes.contains f) then
    some "Attributes"
  else none

/-- Raw lookup of field `f` inside section `sec` of record `r` (absent or
non-dict sections hold no fields). -/
def sectionLookupRaw (r : Rec) (sec f : String) : Option JValue :=
  match lookupS r sec with
  | some (.obj g) => lookupS g f
  | _ => none

/-- Where `extract_key_fields` reads the value of column `f` from: the
top-level record for `TemplateVersion`, the corresponding section otherwise.
`none` means the field is missing from the record. -/
def sourceFieldValue (r : Rec) (f : String) : Option JValue :=
  match sectionOfField f with
  | some sec => sectionLookupRaw r sec f
  | none => lookupS r f

/-- Section `k` of `r` is absent or a mapping (so `.get` chains cannot
raise). -/
def sectionOkB (r : Rec) (k : String) : Bool := (jGetSection r k).isSome

/-- `Header.InstrumentType`, when present, is a string. -/
def instTypeOkB (r : Rec) : Bool :=
  match jGetSection r "Header" with
  | some fs =>
      match lookupS fs "InstrumentType" with
      | none => true
      | some (.str _) => true
      | some _ => false
  | none => true

/-- A CFI entry is a mapping with mapping-or-absent `Category`/`Group` and a
sequence of mappings (or absent) `Attributes`. -/
def cfiEntryOkB : JValue → Bool
  | .obj cf =>
      sectionOkB cf "Category" && sectionOkB cf "Group" &&
        (match lookupS cf "Attributes" with
         | none => true
         | some (.arr l) => l.all JValue.isObjB
         | some _ => false)
  | _ => false

/-- `Derived.CFI`, when present, is a sequence of well-formed CFI entries. -/
def cfiOkB (r : Rec) : Bool :=
  match jGetSection r "Derived" with
  | some fs =>
      match lookupS fs "CFI" with
      | none => true
      | some (.arr l) => l.all cfiEntryOkB
      | some _ => false
  | none => true

/-- Well-formedness sufficient for the `smart`/`smart_by_type` pipelines:
the four sections are mappings when present, `Header.InstrumentType` is a
string when present, and `Derived.CFI` holds well-formed entries. -/
def wfRec (r : Rec) : Bool :=
  sectionOkB r "Header" && sectionOkB r "Identifier" && sectionOkB r "Derived" &&
    sectionOkB r "Attributes" && instTypeOkB r && cfiOkB r

/-- A `Future` record carrying `Attributes.ExpiryDate` (claim C1). -/
def futureExpiryRec : Rec :=
  [("Header", .obj [("InstrumentType", .str "Future")]),
   ("Attributes", .obj [("ExpiryDate", .str "2024-01-01")])]

/-- A record whose `Header.InstrumentType` is an unrecognized string
(claim C3). -/
def equityRec : Rec := [("Header", .obj [("InstrumentType", .str "Equity")])]

/-- A record whose `Header` value is not a mapping (claim C2). -/
def badHeaderRec : Rec := [("Header", .num 5)]

/-- A record with two distinct leaf positions flattening to the same key path
(claim C4). -/
def collidingRec : Rec := [("a", .obj [("b", .num 1)]), ("a_b", .num 2)]

/-- A short all-dict list whose element contains a literal `count` key
(claim C8). -/
def countKeyRec : Rec := [("x", .arr [.obj [("count", .num 1)]])]

/-- A record where a sibling key collides with an indexed list path
(claim C8). -/
def siblingClashRec : Rec := [("x", .arr [.obj [("a", .num 1)]]), ("x_0_a", .num 2)]

/-- The item list of a value known to be a dict (used to speak about the
flattening of a list element). -/
def asFields : JValue → Rec
  | .obj fs => fs
  | _ => []

/-! ### Association list and Python-dict lemmas -/

theorem lookupS_append {α : Type} (l₁ l₂ : List (String × α)) (k : String) :
    lookupS (l₁ ++ l₂) k = (lookupS l₁ k).or (lookupS l₂ k) := by
  induction l₁ with
  | nil => simp [lookupS]
  | cons p rest ih =>
      obtain ⟨k', v'⟩ := p
      by_cases h : k' == k <;> simp [lookupS, h, ih]

theorem lookupS_mem {α : Type} {l : List (String × α)} {k : String} {v : α}
    (h : lookupS l k = some v) : (k, v) ∈ l := by
  induction l with
  | nil => simp [lookupS] at h
  | cons p rest ih =>
      obtain ⟨k', v'⟩ := p
      by_cases hk : k' == k
      · simp [lookupS, hk] at h
        simp_all
      · simp [lookupS, hk] at h
        exact List.mem_cons_of_mem _ (ih h)

theorem lookupS_eq_none {α : Type} {l : List (String × α)} {k : String}
    (h : ∀ p ∈ l, p.1 ≠ k) : lookupS l k = none := by
  induction l with
  | nil => rfl
  | cons p rest ih =>
      obtain ⟨k', v'⟩ := p
      have hk : ¬(k' == k) := by
        simp only [beq_iff_eq]
        exact h (k', v') (List.mem_cons_self _ _)
      simp only [lookupS, hk, if_neg, Bool.false_eq_true, if_false]
      exact ih (fun q hq => h q (List.mem_cons_of_mem _ hq))

theorem mem_lookupS_of_nodup {α : Type} {l : List (String × α)} {k : String} {v : α}
    (hnd : (l.map Prod.fst).Nodup) (h : (k, v) ∈ l) : lookupS l k = some v := by
  induction l with
  | nil => simp at h
  | cons p rest ih =>
      obtain ⟨k', v'⟩ := p
      simp only [List.map_cons, List.nodup_cons] at hnd
      rcases List.mem_cons.mp h with h1 | h1
      · obtain ⟨hk, hv⟩ := Prod.mk.injEq .. ▸ h1
        subst hk
        simp [lookupS, hv]
      · have hk : k' ≠ k := by
          intro he
          subst he
          exact hnd.1 (List.mem_map.mpr ⟨(k', v), h1, rfl⟩)
        have : ¬(k' == k) := by simpa using hk
        simp [lookupS, this]
        exact ih hnd.2 h1

theorem lookupS_pyInsert {α : Type} (l : List (String × α)) (k key : String) (v : α) :
    lookupS (pyInsert l k v) key = if k == key then some v else lookupS l key := by
  induction l with
  | nil => simp [pyInsert, lookupS]
  | cons p rest ih =>
      obtain ⟨k', v'⟩ := p
      by_cases h : k' == k
      · have hk : k' = k := by simpa using h
        subst hk
        by_cases h2 : k' == key <;> simp [pyInsert, lookupS, h, h2]
      · by_cases h2 : k' == key
        · have hk : k' = key := by simpa using h2
          subst hk
          have : ¬(k == k') := by
            simp only [beq_iff_eq]
            intro he
            exact h (by simp [he])
          simp [pyInsert, lookupS, h, h2, this]
        · simp [pyInsert, lookupS, h, h2, ih]

theorem pyInsert_of_not_mem {α : Type} {l : List (String × α)} {k : String} (v : α)
    (h : k ∉ l.map Prod.fst) : pyInsert l k v = l ++ [(k, v)] := by
  induction l with
  | nil => rfl
  | cons p rest ih =>
      obtain ⟨k', v'⟩ := p
      simp only [List.map_cons, List.mem_cons] at h
      push_neg at h
      have : ¬(k' == k) := by
        simp only [beq_iff_eq]
        exact fun he => h.1 he.symm
      simp [pyInsert, this, ih h.2]

theorem keys_pyInsert {α : Type} (l : List (String × α)) (k : String) (v : α) :
    (pyInsert l k v).map Prod.fst =
      if k ∈ l.map Prod.fst then l.map Prod.fst else l.map Prod.fst ++ [k] := by
  induction l with
  | nil => simp [pyInsert]
  | cons p rest ih =>
      obtain ⟨k', v'⟩ := p
      by_cases h : k' == k
      · have hk : k' = k := by simpa using h
        subst hk
        simp [pyInsert, h]
      · have hk : k' ≠ k := by simpa using h
        simp only [pyInsert, h, Bool.false_eq_true, if_false, List.map_cons, ih]
        by_cases hm : k ∈ rest.map Prod.fst
        · simp [hm, List.mem_cons, hk]
        · have hne : k ≠ k' := fun he => hk he.symm
          simp [hm, List.mem_cons, hk, hne]

theorem mem_pyInsert {α : Type} {x : String × α} {l : List (String × α)} {k : String} {v : α}
    (h : x ∈ pyInsert l k v) : x ∈ l ∨ x = (k, v) := by
  induction l with
  | nil => simpa [pyInsert] using h
  | cons p rest ih =>
      obtain ⟨k', v'⟩ := p
      by_cases hk : k' == k
      · have he : k' = k := by simpa using hk
        subst he
        simp only [pyInsert, hk, if_true] at h
        rcases List.mem_cons.mp h with h1 | h1
        · right; simpa using h1
        · left; exact List.mem_cons_of_mem _ h1
      · simp only [pyInsert, hk, Bool.false_eq_true, if_false] at h
        rcases List.mem_cons.mp h with h1 | h1
        · left; simp [h1]
        · rcases ih h1 with h2 | h2
          · left; exact List.mem_cons_of_mem _ h2
          · right; exact h2

theorem lookupS_foldl_pyInsert {α : Type} (l : List (String × α))
    (acc : List (String × α)) (key : String) :
    lookupS (l.foldl (fun a p => pyInsert a p.1 p.2) acc) key =
      (lookupS l.reverse key).or (lookupS acc key) := by
  induction l generalizing acc with
  | nil => simp [lookupS]
  | cons p rest ih =>
      obtain ⟨k, v⟩ := p
      simp only [List.foldl_cons, ih, List.reverse_cons, lookupS_append,
        lookupS_pyInsert]
      by_cases h : k == key <;>
        cases hrev : lookupS rest.reverse key <;> simp [lookupS, h]

theorem lookupS_pyDict {α : Type} (l : List (String × α)) (key : String) :
    lookupS (pyDictOfList l) key = lookupS l.reverse key := by
  simp [pyDictOfList, lookupS_foldl_pyInsert, lookupS]

theorem keys_foldl_pyInsert_nodup {α : Type} (l : List (String × α))
    (acc : List (String × α)) (h : (acc.map Prod.fst).Nodup) :
    ((l.foldl (fun a p => pyInsert a p.1 p.2) acc).map Prod.fst).Nodup := by
  induction l generalizing acc with
  | nil => exact h
  | cons p rest ih =>
      simp only [List.foldl_cons]
      refine ih _ ?_
      rw [keys_pyInsert]
      by_cases hm : p.1 ∈ acc.map Prod.fst
      · simp [hm, h]
      · simp [hm, List.nodup_append, h]

theorem keys_pyDict_nodup {α : Type} (l : List (String × α)) :
    ((pyDictOfList l).map Prod.fst).Nodup :=
  keys_foldl_pyInsert_nodup l [] (by simp)

theorem mem_foldl_pyInsert {α : Type} {x : String × α} {l acc : List (String × α)}
    (h : x ∈ l.foldl (fun a p => pyInsert a p.1 p.2) acc) : x ∈ acc ∨ x ∈ l := by
  induction l generalizing acc with
  | nil => exact Or.inl h
  | cons p rest ih =>
      simp only [List.foldl_cons] at h
      rcases ih h with h1 | h1
      · rcases mem_pyInsert h1 with h2 | h2
        · exact Or.inl h2
        · exact Or.inr (by simp [h2])
      · exact Or.inr (List.mem_cons_of_mem _ h1)

theorem mem_pyDict {α : Type} {x : String × α} {l : List (String × α)}
    (h : x ∈ pyDictOfList l) : x ∈ l := by
  rcases mem_foldl_pyInsert h with h1 | h1
  · simp at h1
  · exact h1

theorem keys_pyDict_sub {α : Type} {l : List (String × α)} {p : String}
    (h : p ∈ (pyDictOfList l).map Prod.fst) : p ∈ l.map Prod.fst := by
  rcases List.mem_map.mp h with ⟨x, hx, hpx⟩
  exact List.mem_map.mpr ⟨x, mem_pyDict hx, hpx⟩

theorem foldl_pyInsert_eq_append {α : Type} (l acc : List (String × α))
    (h : (acc.map Prod.fst ++ l.map Prod.fst).Nodup) :
    l.foldl (fun a p => pyInsert a p.1 p.2) acc = acc ++ l := by
  induction l generalizing acc with
  | nil => simp
  | cons p rest ih =>
      obtain ⟨k, v⟩ := p
      simp only [List.foldl_cons]
      have hk : k ∉ acc.map Prod.fst := by
        intro hm
        rw [List.nodup_append] at h
        exact h.2.2 hm (by simp)
      rw [pyInsert_of_not_mem v hk]
      have h2 : ((acc ++ [(k, v)]).map Prod.fst ++ rest.map Prod.fst).Nodup := by
        simp only [List.map_append, List.map_cons, List.map_nil, List.append_assoc]
        simpa using h
      rw [ih _ h2, List.append_assoc]
      rfl

theorem pyDict_eq_self_of_nodup {α : Type} {l : List (String × α)}
    (h : (l.map Prod.fst).Nodup) : pyDictOfList l = l := by
  have := foldl_pyInsert_eq_append l [] (by simpa using h)
  simpa [pyDictOfList] using this

theorem mem_pyDict_iff_lookup {α : Type} {l : List (String × α)} {k : String} {v : α} :
    (k, v) ∈ pyDictOfList l ↔ lookupS l.reverse k = some v := by
  constructor
  · intro h
    rw [← lookupS_pyDict]
    exact mem_lookupS_of_nodup (keys_pyDict_nodup l) h
  · intro h
    rw [← lookupS_pyDict] at h
    exact lookupS_mem h

/-! ### Flattening lemmas -/

theorem flattenObj_append (xs ys : Rec) (parent sep : String) :
    flattenObj (xs ++ ys) parent sep = flattenObj xs parent sep ++ flattenObj ys parent sep := by
  induction xs with
  | nil => simp [flattenObj]
  | cons p rest ih =>
      obtain ⟨k, v⟩ := p
      simp [flattenObj, ih]

mutual

/-- Every value emitted by the object loop is a leaf (no dict/list). -/
def flattenObj_values_scalar : ∀ (fs : Rec) (parent sep p : String) (v : JValue),
    (p, v) ∈ flattenObj fs parent sep → v.isContainerB = false
  | [], _, _, _, _, h => by simp [flattenObj] at h
  | (k, w) :: rest, parent, sep, p, v, h => by
      simp only [flattenObj] at h
      rcases List.mem_append.mp h with h1 | h1
      · exact flattenVal_values_scalar w (mkKey parent sep k) sep p v h1
      · exact flattenObj_values_scalar rest parent sep p v h1

/-- Every value emitted for a single entry is a leaf. -/
def flattenVal_values_scalar : ∀ (w : JValue) (key sep p : String) (v : JValue),
    (p, v) ∈ flattenVal w key sep → v.isContainerB = false
  | .null, key, sep, p, v, h => by
      simp only [flattenVal, List.mem_singleton, Prod.mk.injEq] at h
      rw [h.2]; rfl
  | .bool b, key, sep, p, v, h => by
      simp only [flattenVal, List.mem_singleton, Prod.mk.injEq] at h
      rw [h.2]; rfl
  | .num n, key, sep, p, v, h => by
      simp only [flattenVal, List.mem_singleton, Prod.mk.injEq] at h
      rw [h.2]; rfl
  | .str s, key, sep, p, v, h => by
      simp only [flattenVal, List.mem_singleton, Prod.mk.injEq] at h
      rw [h.2]; rfl
  | .obj fs, key, sep, p, v, h => by
      simp only [flattenVal] at h
      exact flattenObj_values_scalar fs key sep p v h
  | .arr l, key, sep, p, v, h => by
      simp only [flattenVal] at h
      by_cases h0 : l.length = 0
      · simp only [h0, if_true] at h
        simp only [List.mem_singleton, Prod.mk.injEq] at h
        rw [h.2]; rfl
      · simp only [h0, if_false] at h
        by_cases h1 : l.all JValue.isObjB
        · simp only [h1, if_true] at h
          rcases List.mem_append.mp h with h2 | h2
          · exact flattenDicts_values_scalar l 0 key sep p v h2
          · by_cases h3 : 3 < l.length
            · simp only [h3, if_true, List.mem_singleton, Prod.mk.injEq] at h2
              rw [h2.2]; rfl
            · simp [h3] at h2
        · simp only [h1, Bool.false_eq_true, if_false, List.mem_singleton,
            Prod.mk.injEq] at h
          rw [h.2]; rfl

/-- Every value emitted by the numbered list loop is a leaf. -/
def flattenDicts_values_scalar : ∀ (l : List JValue) (i : Nat) (key sep p : String)
    (v : JValue), (p, v) ∈ flattenDicts l i key sep → v.isContainerB = false
  | [], _, _, _, _, _, h => by simp [flattenDicts] at h
  | .obj fs :: rest, i, key, sep, p, v, h => by
      simp only [flattenDicts] at h
      rcases List.mem_append.mp h with h1 | h1
      · by_cases hi : i < 3
        · simp only [hi, if_true] at h1
          exact flattenObj_values_scalar fs (key ++ "_" ++ toString i) sep p v h1
        · simp [hi] at h1
      · exact flattenDicts_values_scalar rest (i + 1) key sep p v h1
  | .null :: rest, i, key, sep, p, v, h => by
      simp only [flattenDicts] at h
      exact flattenDicts_values_scalar rest (i + 1) key sep p v h
  | .bool b :: rest, i, key, sep, p, v, h => by
      simp only [flattenDicts] at h
      exact flattenDicts_values_scalar rest (i + 1) key sep p v h
  | .num n :: rest, i, key, sep, p, v, h => by
      simp only [flattenDicts] at h
      exact flattenDicts_values_scalar rest (i + 1) key sep p v h
  | .str s :: rest, i, key, sep, p, v, h => by
      simp only [flattenDicts] at h
      exact flattenDicts_values_scalar rest (i + 1) key sep p v h
  | .arr a :: rest, i, key, sep, p, v, h => by
      simp only [flattenDicts] at h
      exact flattenDicts_values_scalar rest (i + 1) key sep p v h

end

theorem append_underscore_ne_empty (a b : String) : a ++ "_" ++ b ≠ "" := by
  intro h
  have hlen := congrArg String.length h
  simp only [String.length_append,
    show ("_" : String).length = 1 from rfl,
    show ("" : String).length = 0 from rfl] at hlen
  omega

mutual

/-- Every key emitted by the object loop extends `mkKey parent sep k` for one
of the dict's keys `k`. -/
def flattenObj_key_shape : ∀ (fs : Rec) (parent sep p : String) (v : JValue),
    (p, v) ∈ flattenObj fs parent sep → ∃ k t, p = mkKey parent sep k ++ t
  | [], _, _, _, _, h => by simp [flattenObj] at h
  | (k, w) :: rest, parent, sep, p, v, h => by
      simp only [flattenObj] at h
      rcases List.mem_append.mp h with h1 | h1
      · obtain ⟨t, ht⟩ := flattenVal_key_shape w (mkKey parent sep k) sep p v h1
        exact ⟨k, t, ht⟩
      · exact flattenObj_key_shape rest parent sep p v h1

/-- Every key emitted for one entry extends the entry's `new_key`. -/
def flattenVal_key_shape : ∀ (w : JValue) (key sep p : String) (v : JValue),
    (p, v) ∈ flattenVal w key sep → ∃ t, p = key ++ t
  | .null, key, sep, p, v, h => by
      simp only [flattenVal, List.mem_singleton, Prod.mk.injEq] at h
      exact ⟨"", by simp [h.1]⟩
  | .bool b, key, sep, p, v, h => by
      simp only [flattenVal, List.mem_singleton, Prod.mk.injEq] at h
      exact ⟨"", by simp [h.1]⟩
  | .num n, key, sep, p, v, h => by
      simp only [flattenVal, List.mem_singleton, Prod.mk.injEq] at h
      exact ⟨"", by simp [h.1]⟩
  | .str s, key, sep, p, v, h => by
      simp only [flattenVal, List.mem_singleton, Prod.mk.injEq] at h
      exact ⟨"", by simp [h.1]⟩
  | .obj fs, key, sep, p, v, h => by
      simp only [flattenVal] at h
      obtain ⟨k, t, ht⟩ := flattenObj_key_shape fs key sep p v h
      by_cases hk : key = ""
      · exact ⟨p, by simp [hk]⟩
      · refine ⟨sep ++ (k ++ t), ?_⟩
        rw [ht]
        simp [mkKey, hk, String.append_assoc]
  | .arr l, key, sep, p, v, h => by
      simp only [flattenVal] at h
      by_cases h0 : l.length = 0
      · simp only [h0, if_true, List.mem_singleton, Prod.mk.injEq] at h
        exact ⟨"", by simp [h.1]⟩
      · simp only [h0, if_false] at h
        by_cases h1 : l.all JValue.isObjB
        · simp only [h1, if_true] at h
          rcases List.mem_append.mp h with h2 | h2
          · obtain ⟨j, u, _, _, _, hp⟩ := flattenDicts_key_shape l 0 key sep p v h2
            refine ⟨"_" ++ (toString j ++ (sep ++ u)), ?_⟩
            rw [hp]
            simp [String.append_assoc]
          · by_cases h3 : 3 < l.length
            · simp only [h3, if_true, List.mem_singleton, Prod.mk.injEq] at h2
              exact ⟨"_count", h2.1⟩
            · simp [h3] at h2
        · simp only [h1, Bool.false_eq_true, if_false, List.mem_singleton,
            Prod.mk.injEq] at h
          exact ⟨"", by simp [h.1]⟩

/-- Every key emitted by the numbered list loop carries one of the indices
0, 1, 2 (bounded by the list length). -/
def flattenDicts_key_shape : ∀ (l : List JValue) (i : Nat) (key sep p : String)
    (v : JValue), (p, v) ∈ flattenDicts l i key sep →
      ∃ j u, i ≤ j ∧ j < 3 ∧ j - i < l.length ∧ p = key ++ "_" ++ toString j ++ sep ++ u
  | [], _, _, _, _, _, h => by simp [flattenDicts] at h
  | .obj fs :: rest, i, key, sep, p, v, h => by
      simp only [flattenDicts] at h
      rcases List.mem_append.mp h with h1 | h1
      · by_cases hi : i < 3
        · simp only [hi, if_true] at h1
          obtain ⟨k, t, ht⟩ := flattenObj_key_shape fs (key ++ "_" ++ toString i) sep p v h1
          have hne : key ++ "_" ++ toString i ≠ "" := append_underscore_ne_empty _ _
          refine ⟨i, k ++ t, le_refl i, hi, by simp, ?_⟩
          rw [ht]
          simp only [mkKey]
          rw [if_neg hne]
          simp [String.append_assoc]
        · simp [hi] at h1
      · obtain ⟨j, u, hj1, hj2, hj3, hp⟩ := flattenDicts_key_shape rest (i + 1) key sep p v h1
        exact ⟨j, u, by omega, hj2, by simp; omega, hp⟩
  | .null :: rest, i, key, sep, p, v, h => by
      simp only [flattenDicts] at h
      obtain ⟨j, u, hj1, hj2, hj3, hp⟩ := flattenDicts_key_shape rest (i + 1) key sep p v h
      exact ⟨j, u, by omega, hj2, by simp; omega, hp⟩
  | .bool b :: rest, i, key, sep, p, v, h => by
      simp only [flattenDicts] at h
      obtain ⟨j, u, hj1, hj2, hj3, hp⟩ := flattenDicts_key_shape rest (i + 1) key sep p v h
      exact ⟨j, u, by omega, hj2, by simp; omega, hp⟩
  | .num n :: rest, i, key, sep, p, v, h => by
      simp only [flattenDicts] at h
      obtain ⟨j, u, hj1, hj2, hj3, hp⟩ := flattenDicts_key_shape rest (i + 1) key sep p v h
      exact ⟨j, u, by omega, hj2, by simp; omega, hp⟩
  | .str s :: rest, i, key, sep, p, v, h => by
      simp only [flattenDicts] at h
      obtain ⟨j, u, hj1, hj2, hj3, hp⟩ := flattenDicts_key_shape rest (i + 1) key sep p v h
      exact ⟨j, u, by omega, hj2, by simp; omega, hp⟩
  | .arr a :: rest, i, key, sep, p, v, h => by
      simp only [flattenDicts] at h
      obtain ⟨j, u, hj1, hj2, hj3, hp⟩ := flattenDicts_key_shape rest (i + 1) key sep p v h
      exact ⟨j, u, by omega, hj2, by simp; omega, hp⟩

end

theorem indexed_key_ne_count_key (k : String) (j : Nat) (hj : j < 3) (u : String) :
    k ++ "_" ++ toString j ++ "_" ++ u ≠ k ++ "_count" := by
  intro h
  have hd := congrArg String.data h
  simp only [String.data_append, List.append_assoc] at hd
  have hd2 := List.append_cancel_left hd
  interval_cases j <;>
    simp only [show (toString (0 : Nat)).data = ['0'] from rfl,
      show (toString (1 : Nat)).data = ['1'] from rfl,
      show (toString (2 : Nat)).data = ['2'] from rfl,
      show ("_" : String).data = ['_'] from rfl,
      show ("_count" : String).data = ['_', 'c', 'o', 'u', 'n', 't'] from rfl] at hd2 <;>
    simp at hd2

theorem indexed_key_ne_indexed_key (k sep : String) (j j' : Nat) (hj : j < 3)
    (hj' : j' < 3) (hne : j ≠ j') (u u' : String) :
    k ++ "_" ++ toString j ++ sep ++ u ≠ k ++ "_" ++ toString j' ++ sep ++ u' := by
  intro h
  have hd := congrArg String.data h
  simp only [String.data_append, List.append_assoc] at hd
  have hd2 := List.append_cancel_left hd
  interval_cases j <;> interval_cases j' <;> first
    | exact hne rfl
    | (simp only [show (toString (0 : Nat)).data = ['0'] from rfl,
        show (toString (1 : Nat)).data = ['1'] from rfl,
        show (toString (2 : Nat)).data = ['2'] from rfl,
        show ("_" : String).data = ['_'] from rfl] at hd2
       simp at hd2)

/-! ### Claims C1, C3, C4, C9, C10 -/

/-- C1 (counterexample): the Future entry's `ExpiryDate` and
`SettlementMethod` attributes do not appear in the Default entry, and a
`Future` record carrying `Attributes.ExpiryDate` gets that column in its
type-specific projection but loses it under `include_all_fields=True`. -/
theorem c1_future_fields_missing_from_default :
    "ExpiryDate" ∈ ((lookupS INSTRUMENT_SPECIFIC_FIELDS "Future").getD DEFAULT_CONFIG).Attributes ∧
    "SettlementMethod" ∈
      ((lookupS INSTRUMENT_SPECIFIC_FIELDS "Future").getD DEFAULT_CONFIG).Attributes ∧
    "ExpiryDate" ∉ DEFAULT_CONFIG.Attributes ∧
    "SettlementMethod" ∉ DEFAULT_CONFIG.Attributes ∧
    "ExpiryDate" ∈ ((extract_key_fields futureExpiryRec false).getD []).map Prod.fst ∧
    "ExpiryDate" ∉ ((extract_key_fields futureExpiryRec true).getD []).map Prod.fst := by
  decide

/-- C1 (amended): the Default entry of `INSTRUMENT_SPECIFIC_FIELDS` is a
superset of the Swap, Forward and Option entries' Derived and Attributes
lists, but not of Future's: exactly `ExpiryDate` and `SettlementMethod` from
Future's Attributes are absent from the Default entry (so an include-all
projection omits exactly those two type-specific columns). -/
theorem c1_default_superset_amended :
    ((lookupS INSTRUMENT_SPECIFIC_FIELDS "Swap").getD DEFAULT_CONFIG).Derived ⊆
      DEFAULT_CONFIG.Derived ∧
    ((lookupS INSTRUMENT_SPECIFIC_FIELDS "Swap").getD DEFAULT_CONFIG).Attributes ⊆
      DEFAULT_CONFIG.Attributes ∧
    ((lookupS INSTRUMENT_SPECIFIC_FIELDS "Forward").getD DEFAULT_CONFIG).Derived ⊆
      DEFAULT_CONFIG.Derived ∧
    ((lookupS INSTRUMENT_SPECIFIC_FIELDS "Forward").getD DEFAULT_CONFIG).Attributes ⊆
      DEFAULT_CONFIG.Attributes ∧
    ((lookupS INSTRUMENT_SPECIFIC_FIELDS "Option").getD DEFAULT_CONFIG).Derived ⊆
      DEFAULT_CONFIG.Derived ∧
    ((lookupS INSTRUMENT_SPECIFIC_FIELDS "Option").getD DEFAULT_CONFIG).Attributes ⊆
      DEFAULT_CONFIG.Attributes ∧
    ((lookupS INSTRUMENT_SPECIFIC_FIELDS "Future").getD DEFAULT_CONFIG).Derived ⊆
      DEFAULT_CONFIG.Derived ∧
    ((lookupS INSTRUMENT_SPECIFIC_FIELDS "Future").getD DEFAULT_CONFIG).Attributes.filter
        (fun f => !(DEFAULT_CONFIG.Attributes.contains f)) =
      ["ExpiryDate", "SettlementMethod"] := by
  decide

/-- C3 (counterexample): a record whose `Header.InstrumentType` is the
unrecognized string `"Equity"` is classified as `"Equity"`, not `"Default"`,
and grouping keys it under `"Equity"`. -/
theorem c3_unrecognized_type_not_default :
    get_instrument_type equityRec = some (.str "Equity") ∧
    (JValue.str "Equity") ≠ .str "Default" ∧
    group_by_instrument_type [equityRec] = some [(.str "Equity", [equityRec])] := by
  decide

/-- C3 (amended): the classifier yields `"Default"` exactly when `Header` or
`Header.InstrumentType` is absent; a present `InstrumentType` value —
recognized or not — is returned verbatim, and grouping keys the record under
that verbatim value. -/
theorem c3_classifier_amended (r : Rec) :
    (lookupS r "Header" = none → get_instrument_type r = some (.str "Default")) ∧
    (∀ fs, lookupS r "Header" = some (.obj fs) → lookupS fs "InstrumentType" = none →
      get_instrument_type r = some (.str "Default")) ∧
    (∀ fs v, lookupS r "Header" = some (.obj fs) → lookupS fs "InstrumentType" = some v →
      get_instrument_type r = some v) ∧
    (∀ c, get_instrument_type r = some c → hashableB c = true →
      group_by_instrument_type [r] = some [(c, [r])]) := by
  refine ⟨?_, ?_, ?_, ?_⟩
  · intro h
    simp [get_instrument_type, jGetSection, h, lookupS]
  · intro fs h1 h2
    simp [get_instrument_type, jGetSection, h1, h2]
  · intro fs v h1 h2
    simp [get_instrument_type, jGetSection, h1, h2]
  · intro c h1 h2
    simp [group_by_instrument_type, groupGo, h1, h2, insertGrouped]

/-- C3 (amended, witness): instantiated at the `"Equity"` record. -/
theorem c3_classifier_amended_witness :
    get_instrument_type equityRec = some (.str "Equity") ∧
    group_by_instrument_type [equityRec] = some [(.str "Equity", [equityRec])] := by
  have h := c3_classifier_amended equityRec
  have h1 := h.2.2.1 [("InstrumentType", .str "Equity")] (.str "Equity")
    (by decide) (by decide)
  exact ⟨h1, h.2.2.2 (.str "Equity") h1 (by decide)⟩

/-- C4 (counterexample): two distinct leaf positions of
`{"a": {"b": 1}, "a_b": 2}` emit the same flattened key path `a_b`, and the
later pair overwrites the earlier one in the returned mapping. -/
theorem c4_colliding_paths :
    (flattenObj collidingRec "" "_").map Prod.fst = ["a_b", "a_b"] ∧
    flattenObj collidingRec "" "_" = [("a_b", .num 1), ("a_b", .num 2)] ∧
    flatten_dict collidingRec "" "_" = [("a_b", .num 2)] := by
  decide

/-- C4 (amended): distinct leaf positions can produce the same flattened key
path (later entries then overwrite earlier ones); whenever the emitted key
paths are pairwise distinct, the flat mapping keeps exactly one entry per
emitted (path, value) pair with no overwriting. -/
theorem c4_no_overwrite_amended (d : Rec) (parent sep : String)
    (h : ((flattenObj d parent sep).map Prod.fst).Nodup) :
    flatten_dict d parent sep = flattenObj d parent sep :=
  pyDict_eq_self_of_nodup h

/-- C4 (amended, witness): a record with distinct flattened paths. -/
theorem c4_no_overwrite_amended_witness :
    flatten_dict [("a", .obj [("b", .num 1)]), ("c", .num 2)] "" "_" =
      flattenObj [("a", .obj [("b", .num 1)]), ("c", .num 2)] "" "_" :=
  c4_no_overwrite_amended [("a", .obj [("b", .num 1)]), ("c", .num 2)] "" "_" (by decide)

/-- C9: every value of the mapping returned by `flatten_dict` is a scalar or
null — no dict or list value survives flattening. -/
theorem c9_flatten_values_scalar (r : Rec) (parent sep p : String) (v : JValue)
    (h : (p, v) ∈ flatten_dict r parent sep) : v.isContainerB = false :=
  flattenObj_values_scalar r parent sep p v (mem_pyDict h)

/-- C9 (witness): instantiated at a concrete record. -/
theorem c9_flatten_values_scalar_witness : (JValue.num 1).isContainerB = false :=
  c9_flatten_values_scalar [("a", .num 1)] "" "_" "a" (.num 1) (by decide)

/-- C10: a key holding an empty dict contributes no entry at all to the
flattened output (the field disappears), while a key holding an empty list is
emitted with a null value. -/
theorem c10_empty_container_fields (r₁ r₂ : Rec) (k parent sep : String) :
    flattenObj (r₁ ++ (k, JValue.obj []) :: r₂) parent sep = flattenObj (r₁ ++ r₂) parent sep ∧
    flatten_dict (r₁ ++ (k, JValue.obj []) :: r₂) parent sep =
      flatten_dict (r₁ ++ r₂) parent sep ∧
    flattenObj (r₁ ++ (k, JValue.arr []) :: r₂) parent sep =
      flattenObj r₁ parent sep ++ [(mkKey parent sep k, JValue.null)] ++
        flattenObj r₂ parent sep ∧
    flatten_dict [(k, JValue.obj [])] parent sep = [] ∧
    flatten_dict [(k, JValue.arr [])] parent sep = [(mkKey parent sep k, JValue.null)] := by
  have h1 : flattenObj (r₁ ++ (k, JValue.obj []) :: r₂) parent sep =
      flattenObj (r₁ ++ r₂) parent sep := by
    rw [flattenObj_append, flattenObj_append]
    simp [flattenObj, flattenVal]
  refine ⟨h1, by rw [flatten_dict, flatten_dict, h1], ?_, by rfl, by rfl⟩
  rw [flattenObj_append]
  simp [flattenObj, flattenVal]

/-! ### Claim C6 -/

theorem sectionLookupRaw_of_jGetSection (r : Rec) (sec : String) (fs : Rec)
    (h : jGetSection r sec = some fs) (f : String) :
    sectionLookupRaw r sec f = lookupS fs f := by
  unfold jGetSection at h
  unfold sectionLookupRaw
  cases hl : lookupS r sec with
  | none =>
      rw [hl] at h
      simp only [Option.some.injEq] at h
      subst h
      simp [lookupS]
  | some v =>
      rw [hl] at h
      cases v <;> simp_all

theorem extract_key_fields_all_char (r : Rec) (m : List (String × JValue))
    (h : extract_key_fields r true = some m) :
    m = allIncludeAllFields.map (fun f => (f, (sourceFieldValue r f).getD (.str ""))) := by
  unfold extract_key_fields at h
  cases hH : jGetSection r "Header" with
  | none => rw [hH] at h; simp at h
  | some header =>
  cases hI : jGetSection r "Identifier" with
  | none => rw [hH, hI] at h; simp at h
  | some identifier =>
  cases hD : jGetSection r "Derived" with
  | none => rw [hH, hI, hD] at h; simp at h
  | some derived =>
  cases hA : jGetSection r "Attributes" with
  | none => rw [hH, hI, hD, hA] at h; simp at h
  | some attributes =>
  rw [hH, hI, hD, hA] at h
  have hIT : get_instrument_type r =
      some ((lookupS header "InstrumentType").getD (.str "Default")) := by
    simp [get_instrument_type, hH]
  rw [hIT] at h
  simp only [Option.bind_eq_bind, Option.some_bind, Option.pure_def] at h
  cases hC : specificConfigOf ((lookupS header "InstrumentType").getD (.str "Default")) with
  | none => rw [hC] at h; simp at h
  | some cfg =>
  rw [hC] at h
  simp only [Option.some_bind, if_pos, Option.some.injEq] at h
  have hHf : ∀ f ∈ commonFields "Header", sectionOfField f = some "Header" := by decide
  have hIf : ∀ f ∈ commonFields "Identifier", sectionOfField f = some "Identifier" := by decide
  have hDf : ∀ f ∈ commonFields "Derived_Common", sectionOfField f = some "Derived" := by decide
  have hAf : ∀ f ∈ commonFields "Attributes_Common",
      sectionOfField f = some "Attributes" := by decide
  have hDDf : ∀ f ∈ DEFAULT_CONFIG.Derived, sectionOfField f = some "Derived" := by decide
  have hDAf : ∀ f ∈ DEFAULT_CONFIG.Attributes, sectionOfField f = some "Attributes" := by decide
  have hTV : sectionOfField "TemplateVersion" = none := by decide
  have hgroup : ∀ (sec : String) (fs : Rec), jGetSection r sec = some fs →
      ∀ (fields : List String), (∀ f ∈ fields, sectionOfField f = some sec) →
      fields.map (fun f => (f, (sourceFieldValue r f).getD (JValue.str ""))) =
        fields.map (fun f => (f, (lookupS fs f).getD (JValue.str ""))) := by
    intro sec fs hsec fields hfields
    refine List.map_congr_left (fun f hf => ?_)
    have h1 : sourceFieldValue r f = sectionLookupRaw r sec f := by
      unfold sourceFieldValue
      rw [hfields f hf]
    rw [h1, sectionLookupRaw_of_jGetSection r sec fs hsec f]
  have hL : allIncludeAllFields.map
        (fun f => (f, (sourceFieldValue r f).getD (JValue.str ""))) =
      [("TemplateVersion", (lookupS r "TemplateVersion").getD (.str ""))] ++
      (commonFields "Header").map (fun f => (f, (lookupS header f).getD (.str ""))) ++
      (commonFields "Identifier").map (fun f => (f, (lookupS identifier f).getD (.str ""))) ++
      (commonFields "Derived_Common").map (fun f => (f, (lookupS derived f).getD (.str ""))) ++
      (commonFields "Attributes_Common").map
        (fun f => (f, (lookupS attributes f).getD (.str ""))) ++
      DEFAULT_CONFIG.Derived.map (fun f => (f, (lookupS derived f).getD (.str ""))) ++
      DEFAULT_CONFIG.Attributes.map (fun f => (f, (lookupS attributes f).getD (.str ""))) := by
    unfold allIncludeAllFields
    simp only [List.map_append]
    rw [hgroup "Header" header hH _ hHf, hgroup "Identifier" identifier hI _ hIf,
      hgroup "Derived" derived hD _ hDf, hgroup "Attributes" attributes hA _ hAf,
      hgroup "Derived" derived hD _ hDDf, hgroup "Attributes" attributes hA _ hDAf]
    simp only [List.map_cons, List.map_nil, List.cons_append, List.nil_append]
    unfold sourceFieldValue
    rw [hTV]
  rw [← h, hL]
  have hkeys : ((([("TemplateVersion", (lookupS r "TemplateVersion").getD (JValue.str ""))] ++
      (commonFields "Header").map (fun f => (f, (lookupS header f).getD (.str ""))) ++
      (commonFields "Identifier").map (fun f => (f, (lookupS identifier f).getD (.str ""))) ++
      (commonFields "Derived_Common").map (fun f => (f, (lookupS derived f).getD (.str ""))) ++
      (commonFields "Attributes_Common").map
        (fun f => (f, (lookupS attributes f).getD (.str ""))) ++
      DEFAULT_CONFIG.Derived.map (fun f => (f, (lookupS derived f).getD (.str ""))) ++
      DEFAULT_CONFIG.Attributes.map (fun f => (f, (lookupS attributes f).getD (.str ""))))
        : List (String × JValue)).map Prod.fst).Nodup := by
    have hmaps : ∀ (l : List String) (g : String → JValue),
        (l.map fun f => (f, g f)).map Prod.fst = l := by
      intro l g
      rw [List.map_map]
      have hid : (Prod.fst ∘ fun f => (f, g f)) = id := by funext x; rfl
      rw [hid, List.map_id]
    simp only [List.map_append, List.map_cons, List.map_nil, hmaps]
    decide
  exact pyDict_eq_self_of_nodup hkeys

/-- C6: for any two records on which the include-all projection is defined,
`extract_key_fields(·, include_all_fields=True)` returns rows with the same
keys in the same order (the fixed table-derived column list), every column of
that list is present (never omitted), and a field missing from its source
section appears with the empty-string value. -/
theorem c6_include_all_header_stability (r₁ r₂ : Rec) (m₁ m₂ : List (String × JValue))
    (h₁ : extract_key_fields r₁ true = some m₁)
    (h₂ : extract_key_fields r₂ true = some m₂) :
    m₁.map Prod.fst = m₂.map Prod.fst ∧
    m₁.map Prod.fst = allIncludeAllFields ∧
    (∀ f ∈ allIncludeAllFields, ∃ v, (f, v) ∈ m₁) ∧
    (∀ f v, (f, v) ∈ m₁ → sourceFieldValue r₁ f = none → v = .str "") := by
  have hc₁ := extract_key_fields_all_char r₁ m₁ h₁
  have hc₂ := extract_key_fields_all_char r₂ m₂ h₂
  have hkeys : ∀ (r : Rec),
      (allIncludeAllFields.map
        (fun f => (f, (sourceFieldValue r f).getD (JValue.str "")))).map Prod.fst =
        allIncludeAllFields := by
    intro r
    rw [List.map_map]
    have hid : (Prod.fst ∘ fun f => (f, (sourceFieldValue r f).getD (JValue.str ""))) = id := by
      funext x; rfl
    rw [hid, List.map_id]
  refine ⟨?_, ?_, ?_, ?_⟩
  · rw [hc₁, hc₂, hkeys r₁, hkeys r₂]
  · rw [hc₁, hkeys r₁]
  · intro f hf
    refine ⟨(sourceFieldValue r₁ f).getD (JValue.str ""), ?_⟩
    rw [hc₁]
    exact List.mem_map.mpr ⟨f, hf, rfl⟩
  · intro f v hm hmiss
    rw [hc₁] at hm
    obtain ⟨f', _, hf'⟩ := List.mem_map.mp hm
    obtain ⟨hf1, hf2⟩ := Prod.mk.injEq .. ▸ hf'
    subst hf1
    rw [hmiss] at hf2
    exact hf2.symm

/-- C6 (witness): a Future record and the empty record get identical ordered
key sets under the include-all projection. -/
theorem c6_include_all_header_stability_witness :
    ((extract_key_fields futureExpiryRec true).getD []).map Prod.fst =
      ((extract_key_fields ([] : Rec) true).getD []).map Prod.fst := by
  have h₁ : extract_key_fields futureExpiryRec true =
      some ((extract_key_fields futureExpiryRec true).getD []) := by decide
  have h₂ : extract_key_fields ([] : Rec) true =
      some ((extract_key_fields ([] : Rec) true).getD []) := by decide
  exact (c6_include_all_header_stability futureExpiryRec [] _ _ h₁ h₂).1

/-! ### Claim C7 -/

theorem lookupJ_mem {β : Type} {g : List (JValue × β)} {k : JValue} {v : β}
    (h : lookupJ g k = some v) : (k, v) ∈ g := by
  induction g with
  | nil => simp [lookupJ] at h
  | cons p rest ih =>
      obtain ⟨k', v'⟩ := p
      by_cases hk : k' == k
      · have : k' = k := by simpa using hk
        subst this
        simp [lookupJ, hk] at h
        simp [h]
      · simp only [lookupJ, hk, Bool.false_eq_true, if_false] at h
        exact List.mem_cons_of_mem _ (ih h)

theorem mem_lookupJ_of_nodup {β : Type} {g : List (JValue × β)} {k : JValue} {v : β}
    (hnd : (g.map Prod.fst).Nodup) (h : (k, v) ∈ g) : lookupJ g k = some v := by
  induction g with
  | nil => simp at h
  | cons p rest ih =>
      obtain ⟨k', v'⟩ := p
      simp only [List.map_cons, List.nodup_cons] at hnd
      rcases List.mem_cons.mp h with h1 | h1
      · obtain ⟨hk, hv⟩ := Prod.mk.injEq .. ▸ h1
        subst hk
        simp [lookupJ, hv]
      · have hk : k' ≠ k := by
          intro he
          subst he
          exact hnd.1 (List.mem_map.mpr ⟨(k', v), h1, rfl⟩)
        have : ¬(k' == k) := by simpa using hk
        simp only [lookupJ, this, Bool.false_eq_true, if_false]
        exact ih hnd.2 h1

theorem lookupJ_insertGrouped (g : List (JValue × List Rec)) (k key : JValue) (r : Rec) :
    lookupJ (insertGrouped g k r) key =
      if k = key then some (((lookupJ g key).getD []) ++ [r]) else lookupJ g key := by
  induction g with
  | nil =>
      by_cases h : k = key
      · subst h; simp [insertGrouped, lookupJ]
      · have : ¬(k == key) := by simpa using h
        simp [insertGrouped, lookupJ, h, this]
  | cons p rest ih =>
      obtain ⟨k', l⟩ := p
      by_cases h1 : k' == k
      · have he : k' = k := by simpa using h1
        subst he
        by_cases h2 : k' = key
        · subst h2
          simp [insertGrouped, lookupJ, h1]
        · have h3 : ¬(k' == key) := by simpa using h2
          simp [insertGrouped, lookupJ, h1, h2, h3]
      · by_cases h2 : k' == key
        · have he : k' = key := by simpa using h2
          subst he
          have h3 : k ≠ k' := by
            intro hcon
            subst hcon
            simp at h1
          simp [insertGrouped, lookupJ, h1, h2, h3]
        · simp [insertGrouped, lookupJ, h1, h2, ih]

theorem keysJ_insertGrouped (g : List (JValue × List Rec)) (k : JValue) (r : Rec) :
    (insertGrouped g k r).map Prod.fst =
      if k ∈ g.map Prod.fst then g.map Prod.fst else g.map Prod.fst ++ [k] := by
  induction g with
  | nil => simp [insertGrouped]
  | cons p rest ih =>
      obtain ⟨k', l⟩ := p
      by_cases h1 : k' == k
      · have he : k' = k := by simpa using h1
        subst he
        simp [insertGrouped, h1]
      · have hne : k' ≠ k := by simpa using h1
        have hne2 : k ≠ k' := fun he => hne he.symm
        simp only [insertGrouped, h1, Bool.false_eq_true, if_false, List.map_cons, ih]
        by_cases hm : k ∈ rest.map Prod.fst <;> simp [hm, List.mem_cons, hne2]

theorem sum_insertGrouped (g : List (JValue × List Rec)) (k : JValue) (r : Rec) :
    ((insertGrouped g k r).map (fun p => p.2.length)).sum =
      ((g.map (fun p => p.2.length)).sum) + 1 := by
  induction g with
  | nil => simp [insertGrouped]
  | cons p rest ih =>
      obtain ⟨k', l⟩ := p
      by_cases h1 : k' == k
      · simp [insertGrouped, h1]
        omega
      · simp only [insertGrouped, h1, Bool.false_eq_true, if_false, List.map_cons,
          List.sum_cons, ih]
        omega

theorem dedupNew_nodup : ∀ (l seen : List JValue), seen.Nodup → (seen ++ dedupNew seen l).Nodup
  | [], seen, h => by simpa [dedupNew]
  | x :: xs, seen, h => by
      by_cases hm : x ∈ seen
      · have hc : seen.contains x = true := by simpa using hm
        simpa [dedupNew, hm] using dedupNew_nodup xs seen h
      · have hc : ¬(seen.contains x = true) := by simpa using hm
        have h2 : (seen ++ [x]).Nodup := by
          simp [List.nodup_append, h, hm]
        have h3 := dedupNew_nodup xs (seen ++ [x]) h2
        simp only [dedupNew, hc, Bool.false_eq_true, if_false]
        simpa [List.append_assoc] using h3

theorem dedupNew_sub : ∀ (l seen : List JValue) (x : JValue), x ∈ dedupNew seen l → x ∈ l
  | [], _, _, h => by simp [dedupNew] at h
  | y :: ys, seen, x, h => by
      by_cases hm : y ∈ seen
      · have hc : seen.contains y = true := by simpa using hm
        simp only [dedupNew, hc, if_true] at h
        exact List.mem_cons_of_mem _ (dedupNew_sub ys seen x h)
      · have hc : ¬(seen.contains y = true) := by simpa using hm
        simp only [dedupNew, hc, Bool.false_eq_true, if_false] at h
        rcases List.mem_cons.mp h with h1 | h1
        · simp [h1]
        · exact List.mem_cons_of_mem _ (dedupNew_sub ys (seen ++ [y]) x h1)

theorem mem_dedupNew_of_mem : ∀ (l seen : List JValue) (x : JValue), x ∈ l →
    x ∈ seen ∨ x ∈ dedupNew seen l
  | [], _, _, h => by simp at h
  | y :: ys, seen, x, h => by
      by_cases hm : y ∈ seen
      · have hc : seen.contains y = true := by simpa using hm
        rcases List.mem_cons.mp h with h1 | h1
        · subst h1
          exact Or.inl hm
        · rcases mem_dedupNew_of_mem ys seen x h1 with h2 | h2
          · exact Or.inl h2
          · exact Or.inr (by simpa [dedupNew, hm] using h2)
      · have hc : ¬(seen.contains y = true) := by simpa using hm
        simp only [dedupNew, hc, Bool.false_eq_true, if_false]
        rcases List.mem_cons.mp h with h1 | h1
        · exact Or.inr (by simp [h1])
        · rcases mem_dedupNew_of_mem ys (seen ++ [y]) x h1 with h2 | h2
          · rcases List.mem_append.mp h2 with h3 | h3
            · exact Or.inl h3
            · exact Or.inr (by simp at h3; simp [h3])
          · exact Or.inr (List.mem_cons_of_mem _ h2)

theorem groupGo_char : ∀ (rs : List Rec) (acc g : List (JValue × List Rec)),
    groupGo acc rs = some g →
    (∀ key l, lookupJ acc key = some l →
       lookupJ g key = some (l ++ rs.filter (fun r => classifierIs r key))) ∧
    (∀ key, lookupJ acc key = none →
       (rs.filter (fun r => classifierIs r key) = [] ∧ lookupJ g key = none) ∨
         lookupJ g key = some (rs.filter (fun r => classifierIs r key))) ∧
    g.map Prod.fst = acc.map Prod.fst ++
      dedupNew (acc.map Prod.fst) (rs.filterMap get_instrument_type) ∧
    ((g.map (fun p => p.2.length)).sum = (acc.map (fun p => p.2.length)).sum + rs.length) ∧
    (∀ r' ∈ rs, ∃ c, get_instrument_type r' = some c ∧ hashableB c = true) := by
  intro rs
  induction rs with
  | nil =>
      intro acc g h
      simp only [groupGo, Option.some.injEq] at h
      subst h
      refine ⟨?_, ?_, by simp [dedupNew], by simp, by simp⟩
      · intro key l hl
        simpa using hl
      · intro key hnone
        exact Or.inl ⟨by simp, hnone⟩
  | cons r rest ih =>
      intro acc g h
      simp only [groupGo] at h
      cases hc : get_instrument_type r with
      | none => rw [hc] at h; simp at h
      | some c =>
      rw [hc] at h
      simp only [Option.bind_some, Option.bind_eq_bind, Option.some_bind] at h
      cases hhash : hashableB c with
      | false => rw [hhash] at h; simp at h
      | true =>
      rw [hhash, if_pos rfl] at h
      obtain ⟨iha, ihb, ihc, ihd, ihe⟩ := ih (insertGrouped acc c r) g h
      have hcls : ∀ key, classifierIs r key = (c == key) := by
        intro key
        simp [classifierIs, hc]
      refine ⟨?_, ?_, ?_, ?_, ?_⟩
      · intro key l hl
        by_cases hck : c = key
        · subst hck
          have hacc : lookupJ (insertGrouped acc c r) c = some (l ++ [r]) := by
            rw [lookupJ_insertGrouped]
            simp [hl]
          have := iha c (l ++ [r]) hacc
          rw [this]
          simp [List.filter_cons, hcls]
        · have hbe : ¬(c == key) := by simpa using hck
          have hacc : lookupJ (insertGrouped acc c r) key = some l := by
            rw [lookupJ_insertGrouped, if_neg hck, hl]
          have := iha key l hacc
          rw [this]
          simp [List.filter_cons, hcls, hbe]
      · intro key hnone
        by_cases hck : c = key
        · subst hck
          have hacc : lookupJ (insertGrouped acc c r) c = some [r] := by
            rw [lookupJ_insertGrouped]
            simp [hnone]
          have := iha c [r] hacc
          refine Or.inr ?_
          rw [this]
          simp [List.filter_cons, hcls]
        · have hbe : ¬(c == key) := by simpa using hck
          have hacc : lookupJ (insertGrouped acc c r) key = none := by
            rw [lookupJ_insertGrouped, if_neg hck, hnone]
          rcases ihb key hacc with ⟨hf, hn⟩ | hsome
          · exact Or.inl ⟨by simp [List.filter_cons, hcls, hbe, hf], hn⟩
          · refine Or.inr ?_
            rw [hsome]
            simp [List.filter_cons, hcls, hbe]
      · rw [ihc, keysJ_insertGrouped]
        simp only [List.filterMap_cons, hc]
        by_cases hmem : c ∈ acc.map Prod.fst
        · have hcont : (acc.map Prod.fst).contains c = true := by simpa using hmem
          simp only [hmem, if_true, dedupNew, hcont]
        · have hcont : ¬((acc.map Prod.fst).contains c = true) := by simpa using hmem
          simp only [hmem, if_false, dedupNew, hcont, Bool.false_eq_true,
            List.append_assoc, List.singleton_append]
      · rw [ihd, sum_insertGrouped]
        simp only [List.length_cons]
        omega
      · intro r' hr'
        rcases List.mem_cons.mp hr' with h1 | h1
        · subst h1
          exact ⟨c, hc, hhash⟩
        · exact ihe r' h1

/-- C7: a successful grouping partitions the input: every group holds exactly
the records classified under its key in original order, group keys appear in
first-seen order and are pairwise distinct, the group sizes sum to the input
length, and every record lands in the group of its own classifier value. -/
theorem c7_group_partition (records : List Rec) (g : List (JValue × List Rec))
    (h : group_by_instrument_type records = some g) :
    (∀ p ∈ g, p.2 = records.filter (fun r => classifierIs r p.1)) ∧
    g.map Prod.fst = dedupFirstSeen (records.filterMap get_instrument_type) ∧
    (g.map Prod.fst).Nodup ∧
    ((g.map (fun p => p.2.length)).sum = records.length) ∧
    (∀ r ∈ records, ∃ p ∈ g, get_instrument_type r = some p.1 ∧ r ∈ p.2) := by
  obtain ⟨ha, hb, hkeys, hsum, hcls⟩ := groupGo_char records [] g h
  have hkeys' : g.map Prod.fst = dedupFirstSeen (records.filterMap get_instrument_type) := by
    rw [hkeys]
    simp [dedupFirstSeen]
  have hnd : (g.map Prod.fst).Nodup := by
    rw [hkeys']
    simpa [dedupFirstSeen] using
      dedupNew_nodup (records.filterMap get_instrument_type) [] (by simp)
  have hfilter : ∀ p ∈ g, p.2 = records.filter (fun r => classifierIs r p.1) := by
    intro p hp
    have hlook : lookupJ g p.1 = some p.2 := mem_lookupJ_of_nodup hnd hp
    rcases hb p.1 (by simp [lookupJ]) with ⟨_, hn⟩ | hs
    · rw [hlook] at hn
      exact absurd hn (by simp)
    · rw [hlook] at hs
      exact Option.some.injEq .. ▸ hs
  refine ⟨hfilter, hkeys', hnd, by simpa using hsum, ?_⟩
  intro r hr
  obtain ⟨c, hcr, _⟩ := hcls r hr
  have hcf : c ∈ records.filterMap get_instrument_type :=
    List.mem_filterMap.mpr ⟨r, hr, hcr⟩
  have hcg : c ∈ g.map Prod.fst := by
    rw [hkeys']
    rcases mem_dedupNew_of_mem _ [] c hcf with h1 | h1
    · simp at h1
    · exact h1
  obtain ⟨p, hp, hpc⟩ := List.mem_map.mp hcg
  refine ⟨p, hp, hpc ▸ hcr, ?_⟩
  rw [hfilter p hp]
  refine List.mem_filter.mpr ⟨hr, ?_⟩
  rw [hpc]
  simp [classifierIs, hcr]

/-- C7 (witness): instantiated at a concrete one-record list. -/
theorem c7_group_partition_witness :
    ([(JValue.str "Equity", [equityRec])].map Prod.fst =
      dedupFirstSeen ([equityRec].filterMap get_instrument_type)) ∧
    (([(JValue.str "Equity", [equityRec])].map
      (fun p => p.2.length)).sum = [equityRec].length) := by
  have hg : group_by_instrument_type [equityRec] =
      some [(JValue.str "Equity", [equityRec])] := by decide
  have h := c7_group_partition [equityRec] _ hg
  exact ⟨h.2.1, h.2.2.2.1⟩

/-! ### Claim C5 -/

theorem pySplitCh_of_not_mem (ch : Char) (l : List Char) (h : ch ∉ l) :
    pySplitCh ch l = [l] := by
  induction l with
  | nil => rfl
  | cons c rest ih =>
      simp only [List.mem_cons] at h
      push_neg at h
      have hne : ¬(c == ch) := by
        simp only [beq_iff_eq]
        exact fun he => h.1 he.symm
      simp [pySplitCh, ih h.2, hne]

theorem ndjsonScan_fails (loads : String → Except String JValue) :
    ∀ (lines : List (List Char)),
    (∃ ln ∈ lines, ¬(pyStrip ln).isEmpty ∧ ∃ e, loads (String.mk (pyStrip ln)) = .error e) →
    (ndjsonScan loads lines).2 = false
  | [], h => by simp at h
  | ln' :: rest, h => by
      obtain ⟨ln, hmem, hne, e, herr⟩ := h
      cases hemp : (pyStrip ln').isEmpty with
      | true =>
          have hlr : ln ∈ rest := by
            rcases List.mem_cons.mp hmem with h1 | h1
            · subst h1
              exact absurd hemp (by simpa using hne)
            · exact h1
          have := ndjsonScan_fails loads rest ⟨ln, hlr, hne, e, herr⟩
          simpa [ndjsonScan, hemp] using this
      | false =>
          cases hld : loads (String.mk (pyStrip ln')) with
          | error e' => simp [ndjsonScan, hemp, hld]
          | ok v =>
              have hlr : ln ∈ rest := by
                rcases List.mem_cons.mp hmem with h1 | h1
                · subst h1
                  rw [herr] at hld
                  exact Except.noConfusion hld
                · exact h1
              have := ndjsonScan_fails loads rest ⟨ln, hlr, hne, e, herr⟩
              simpa [ndjsonScan, hemp, hld] using this

/-- C5: when the NDJSON attempt is made and some non-empty line fails to
parse, no partially parsed line leaks into the result: `parse_file` returns
exactly the whole-document step-2 result (array elements, a singleton object,
or the fatal parse error), and the whole document cannot parse as a scalar.
The hypothesis `hscal` is the JSON-grammar fact that a document parsing as a
scalar is a single token: its stripped text has no newline and does not start
with `{`. -/
theorem c5_failed_ndjson_no_partial_leak
    (loads : String → Except String JValue) (content : String)
    (hscal : ∀ s v, loads s = .ok v → v.isContainerB = false →
      '\n' ∉ pyStrip s.data ∧ startsWithCh (pyStrip s.data) '{' = false)
    (hattempt : ndjsonAttemptCond (pySplitCh '\n' (pyStrip content.data)) = true)
    (hfail : ∃ ln ∈ pySplitCh '\n' (pyStrip content.data),
      ¬(pyStrip ln).isEmpty ∧ ∃ e, loads (String.mk (pyStrip ln)) = .error e) :
    parse_file loads content = wholeDocResult loads content ∧
    (∀ v, loads content = .ok v → v.isContainerB = true) := by
  have hscan : (ndjsonScan loads (pySplitCh '\n' (pyStrip content.data))).2 = false :=
    ndjsonScan_fails loads _ hfail
  have hnoscal : ∀ v, loads content = .ok v → v.isContainerB = true := by
    intro v hv
    by_contra hcon
    have hcf : v.isContainerB = false := Bool.eq_false_iff.mpr hcon
    obtain ⟨hnl, hbrace⟩ := hscal content v hv hcf
    have hlines : pySplitCh '\n' (pyStrip content.data) = [pyStrip content.data] :=
      pySplitCh_of_not_mem '\n' _ hnl
    rw [hlines] at hattempt
    simp [ndjsonAttemptCond, hbrace] at hattempt
  refine ⟨?_, hnoscal⟩
  cases hl : loads content with
  | error e => simp [parse_file, wholeDocResult, hscan, hl]
  | ok v =>
      cases v with
      | arr l => simp [parse_file, wholeDocResult, hscan, hl]
      | obj fs => simp [parse_file, wholeDocResult, hscan, hl]
      | null => exact absurd (hnoscal _ hl) (by simp [JValue.isContainerB])
      | bool b => exact absurd (hnoscal _ hl) (by simp [JValue.isContainerB])
      | num n => exact absurd (hnoscal _ hl) (by simp [JValue.isContainerB])
      | str s => exact absurd (hnoscal _ hl) (by simp [JValue.isContainerB])

/-- C5 (witness): instantiated with a decoder that rejects every line and a
two-line input. -/
theorem c5_failed_ndjson_no_partial_leak_witness :
    parse_file (fun _ => Except.error "e") "1\n2" =
      wholeDocResult (fun _ => Except.error "e") "1\n2" := by
  have h := c5_failed_ndjson_no_partial_leak (fun _ => Except.error "e") "1\n2"
    (fun s v hv _ => Except.noConfusion hv)
    (by decide)
    ⟨['1'], by decide, by decide, "e", rfl⟩
  exact h.1

/-! ### Claim C8 -/

theorem flattenDicts_lookup_elem : ∀ (es : List JValue) (base : Nat) (k : String)
    (i : Nat) (hi : i < es.length), base + i < 3 →
    es.all JValue.isObjB = true → ∀ (p : String) (v : JValue),
    lookupS (flattenObj (asFields (es.get ⟨i, hi⟩))
        (k ++ "_" ++ toString (base + i)) "_").reverse p = some v →
    lookupS (flattenDicts es base k "_").reverse p = some v
  | [], _, _, i, hi => by simp at hi
  | e :: rest, base, k, i, hi => by
      intro hb hobj p v hlook
      simp only [List.all_cons, Bool.and_eq_true] at hobj
      obtain ⟨hobj1, hobj2⟩ := hobj
      cases e with
      | obj fs =>
        cases i with
        | zero =>
            have hb3 : base < 3 := by omega
            have hE : flattenDicts (JValue.obj fs :: rest) base k "_" =
                flattenObj fs (k ++ "_" ++ toString base) "_" ++
                  flattenDicts rest (base + 1) k "_" := by
              simp [flattenDicts, hb3]
            have hget : asFields ((JValue.obj fs :: rest).get ⟨0, hi⟩) = fs := rfl
            rw [hget] at hlook
            have hpshape : ∃ u, p = k ++ "_" ++ toString base ++ "_" ++ u := by
              have hmem : (p, v) ∈ flattenObj fs (k ++ "_" ++ toString base) "_" := by
                have := lookupS_mem hlook
                simpa using this
              obtain ⟨k', t, ht⟩ := flattenObj_key_shape fs (k ++ "_" ++ toString base) "_" p v hmem
              have hne' : k ++ "_" ++ toString base ≠ "" := append_underscore_ne_empty _ _
              refine ⟨k' ++ t, ?_⟩
              rw [ht]
              simp only [mkKey]
              rw [if_neg hne']
              simp [String.append_assoc]
            obtain ⟨u, hu⟩ := hpshape
            have hnone : lookupS (flattenDicts rest (base + 1) k "_").reverse p = none := by
              apply lookupS_eq_none
              intro q hq
              rw [List.mem_reverse] at hq
              obtain ⟨j, u', hj1, hj2, _, hq1⟩ :=
                flattenDicts_key_shape rest (base + 1) k "_" q.1 q.2 (by simpa using hq)
              rw [hq1, hu]
              exact indexed_key_ne_indexed_key k "_" j base hj2 hb3 (by omega) u' u
            rw [hE, List.reverse_append, lookupS_append, hnone]
            simpa using hlook
        | succ i' =>
            have hi' : i' < rest.length := by simpa using hi
            have hget : ((JValue.obj fs :: rest).get ⟨i' + 1, hi⟩) =
                rest.get ⟨i', hi'⟩ := rfl
            rw [hget] at hlook
            have hstep : base + (i' + 1) = (base + 1) + i' := by omega
            rw [hstep] at hlook
            have hrec := flattenDicts_lookup_elem rest (base + 1) k i' hi'
              (by omega) hobj2 p v hlook
            by_cases hb3 : base < 3
            · have hE : flattenDicts (JValue.obj fs :: rest) base k "_" =
                  flattenObj fs (k ++ "_" ++ toString base) "_" ++
                    flattenDicts rest (base + 1) k "_" := by
                simp [flattenDicts, hb3]
              rw [hE, List.reverse_append, lookupS_append, hrec]
              rfl
            · have hE : flattenDicts (JValue.obj fs :: rest) base k "_" =
                  flattenDicts rest (base + 1) k "_" := by
                simp [flattenDicts, hb3]
              rw [hE]
              exact hrec
      | null => simp [JValue.isObjB] at hobj1
      | bool b => simp [JValue.isObjB] at hobj1
      | num n => simp [JValue.isObjB] at hobj1
      | str s => simp [JValue.isObjB] at hobj1
      | arr a => simp [JValue.isObjB] at hobj1

/-- C8 (amended): for a record whose sole key holds an all-record sequence,
the flattened row contains the flattened fields of the first
`min(length, 3)` elements under their 0-based indexed prefixes and nothing
else except, exactly when the length exceeds 3, the single marker column
`<path>_count` holding the true length; no `<path>_count` marker exists at
length ≤ 3 (keys ending in `_count` may still arise from element contents,
and sibling keys of a multi-key record may collide with indexed paths). -/
theorem c8_list_cap_amended (k : String) (es : List JValue)
    (hobj : es.all JValue.isObjB = true) (hne : 0 < es.length) :
    (3 < es.length →
      lookupS (flatten_dict [(k, JValue.arr es)] "" "_") (k ++ "_count") =
        some (.num es.length)) ∧
    (es.length ≤ 3 →
      lookupS (flatten_dict [(k, JValue.arr es)] "" "_") (k ++ "_count") = none) ∧
    (∀ (i : Nat) (hi : i < min es.length 3), ∀ pr ∈
        flatten_dict (asFields (es.get ⟨i, lt_of_lt_of_le hi (Nat.min_le_left _ _)⟩))
          (k ++ "_" ++ toString i) "_",
        pr ∈ flatten_dict [(k, JValue.arr es)] "" "_") ∧
    (∀ p ∈ (flatten_dict [(k, JValue.arr es)] "" "_").map Prod.fst,
      p = k ++ "_count" ∨
        ∃ i, i < min es.length 3 ∧ ∃ u, p = k ++ "_" ++ toString i ++ "_" ++ u) := by
  have hlen0 : ¬(es.length = 0) := by omega
  have hitems : flattenObj [(k, JValue.arr es)] "" "_" =
      flattenDicts es 0 k "_" ++
        (if 3 < es.length then [(k ++ "_count", JValue.num es.length)] else []) := by
    simp [flattenObj, flattenVal, mkKey, hlen0, hobj]
  refine ⟨?_, ?_, ?_, ?_⟩
  · intro h3
    simp only [flatten_dict]
    rw [lookupS_pyDict, hitems, if_pos h3, List.reverse_append]
    simp [lookupS]
  · intro h3
    have h3' : ¬(3 < es.length) := by omega
    simp only [flatten_dict]
    rw [lookupS_pyDict, hitems, if_neg h3']
    simp only [List.append_nil]
    apply lookupS_eq_none
    intro q hq
    rw [List.mem_reverse] at hq
    obtain ⟨j, u, _, hj2, _, hq1⟩ := flattenDicts_key_shape es 0 k "_" q.1 q.2 (by simpa using hq)
    rw [hq1]
    exact indexed_key_ne_count_key k j hj2 u
  · intro i hi pr hpr
    obtain ⟨p, v⟩ := pr
    have hiL : i < es.length := lt_of_lt_of_le hi (Nat.min_le_left _ _)
    have hi3 : i < 3 := lt_of_lt_of_le hi (Nat.min_le_right _ _)
    simp only [flatten_dict] at hpr
    have hmem : (p, v) ∈ flattenObj
        (asFields (es.get ⟨i, lt_of_lt_of_le hi (Nat.min_le_left _ _)⟩))
        (k ++ "_" ++ toString i) "_" := mem_pyDict hpr
    have hlook : lookupS (flattenObj
        (asFields (es.get ⟨i, lt_of_lt_of_le hi (Nat.min_le_left _ _)⟩))
        (k ++ "_" ++ toString i) "_").reverse p = some v :=
      mem_pyDict_iff_lookup.mp hpr
    have hpshape : ∃ u, p = k ++ "_" ++ toString i ++ "_" ++ u := by
      obtain ⟨k', t, ht⟩ := flattenObj_key_shape _ (k ++ "_" ++ toString i) "_" p v hmem
      have hne' : k ++ "_" ++ toString i ≠ "" := append_underscore_ne_empty _ _
      refine ⟨k' ++ t, ?_⟩
      rw [ht]
      simp only [mkKey]
      rw [if_neg hne']
      simp [String.append_assoc]
    obtain ⟨u, hu⟩ := hpshape
    simp only [flatten_dict]
    apply mem_pyDict_iff_lookup.mpr
    rw [hitems, List.reverse_append, lookupS_append]
    have hmarker : lookupS
        (if 3 < es.length then [(k ++ "_count", JValue.num es.length)] else []).reverse
        p = none := by
      by_cases h3 : 3 < es.length
      · rw [if_pos h3]
        apply lookupS_eq_none
        intro q hq
        simp only [List.reverse_singleton, List.mem_singleton] at hq
        rw [hq, hu]
        intro he
        exact indexed_key_ne_count_key k i hi3 u he.symm
      · rw [if_neg h3]
        rfl
    rw [hmarker]
    show lookupS (flattenDicts es 0 k "_").reverse p = some v
    have hlook0 : lookupS (flattenObj (asFields (es.get ⟨i, hiL⟩))
        (k ++ "_" ++ toString (0 + i)) "_").reverse p = some v := by
      rw [Nat.zero_add]
      exact hlook
    exact flattenDicts_lookup_elem es 0 k i hiL (by omega) hobj p v hlook0
  · intro p hp
    simp only [flatten_dict] at hp
    have hp2 := keys_pyDict_sub hp
    rw [hitems, List.map_append] at hp2
    rcases List.mem_append.mp hp2 with h1 | h1
    · obtain ⟨⟨q1, q2⟩, hq, hqp⟩ := List.mem_map.mp h1
      obtain ⟨j, u, _, hj2, hj3, hq1⟩ := flattenDicts_key_shape es 0 k "_" q1 q2 hq
      right
      refine ⟨j, by omega, u, ?_⟩
      rw [← hqp]
      exact hq1
    · by_cases h3 : 3 < es.length
      · rw [if_pos h3] at h1
        simp only [List.map_cons, List.map_nil, List.mem_singleton] at h1
        exact Or.inl h1
      · rw [if_neg h3] at h1
        simp at h1

/-- C8 (counterexample): a one-element all-record sequence whose element has a
literal `count` field flattens to the key `x_0_count`, which ends in
`_count` although the sequence length is at most 3; and a sibling key equal to
an indexed path overwrites an element's flattened field, so the flattened
fields of the elements are not always contained in the output for multi-key
records. -/
theorem c8_count_suffix_key_below_cap :
    flatten_dict countKeyRec "" "_" = [("x_0_count", .num 1)] ∧
    "x_0_count" = "x" ++ "_0" ++ "_count" ∧
    ([JValue.obj [("count", .num 1)]]).length ≤ 3 ∧
    flatten_dict siblingClashRec "" "_" = [("x_0_a", .num 2)] ∧
    ("x_0_a", JValue.num 1) ∉ flatten_dict siblingClashRec "" "_" := by
  decide

/-- C8 (amended, witness): a four-element all-record sequence gets its single
count marker with the true length. -/
theorem c8_list_cap_amended_witness :
    lookupS (flatten_dict
        [("x", JValue.arr [.obj [("a", .num 1)], .obj [], .obj [], .obj []])] "" "_")
      ("x" ++ "_count") = some (.num 4) := by
  have h := c8_list_cap_amended "x" [.obj [("a", .num 1)], .obj [], .obj [], .obj []]
    (by decide) (by decide)
  exact h.1 (by decide)

/-! ### Claim C2 -/

theorem mapO_isSome {α β : Type} (f : α → Option β) :
    ∀ (l : List α), (∀ x ∈ l, (f x).isSome = true) → (mapO f l).isSome = true
  | [], _ => rfl
  | x :: xs, h => by
      obtain ⟨y, hy⟩ := Option.isSome_iff_exists.mp (h x (by simp))
      obtain ⟨ys, hys⟩ := Option.isSome_iff_exists.mp
        (mapO_isSome f xs (fun z hz => h z (List.mem_cons_of_mem _ hz)))
      simp [mapO, hy, hys]

theorem snd_mem_of_mem_enumFrom {α : Type} :
    ∀ (l : List α) (n : Nat) (p : Nat × α), p ∈ l.enumFrom n → p.2 ∈ l
  | [], _, _, h => by simp at h
  | x :: xs, n, p, h => by
      rcases List.mem_cons.mp h with h1 | h1
      · simp [h1]
      · exact List.mem_cons_of_mem _ (snd_mem_of_mem_enumFrom xs (n + 1) p h1)

theorem snd_mem_of_mem_enum {α : Type} (l : List α) (p : Nat × α) (h : p ∈ l.enum) :
    p.2 ∈ l :=
  snd_mem_of_mem_enumFrom l 0 p h

theorem wfRec_parts (r : Rec) (h : wfRec r = true) :
    sectionOkB r "Header" = true ∧ sectionOkB r "Identifier" = true ∧
    sectionOkB r "Derived" = true ∧ sectionOkB r "Attributes" = true ∧
    instTypeOkB r = true ∧ cfiOkB r = true := by
  simp only [wfRec, Bool.and_eq_true] at h
  exact ⟨h.1.1.1.1.1, h.1.1.1.1.2, h.1.1.1.2, h.1.1.2, h.1.2, h.2⟩

theorem get_instrument_type_str_of_wf (r : Rec) (h : wfRec r = true) :
    ∃ s, get_instrument_type r = some (.str s) := by
  obtain ⟨h1, _, _, _, h5, _⟩ := wfRec_parts r h
  unfold sectionOkB at h1
  obtain ⟨fs, hH⟩ := Option.isSome_iff_exists.mp h1
  unfold instTypeOkB at h5
  rw [hH] at h5
  have h5' : (match lookupS fs "InstrumentType" with
      | none => true
      | some (JValue.str _) => true
      | some _ => false) = true := h5
  unfold get_instrument_type
  rw [hH]
  cases hit : lookupS fs "InstrumentType" with
  | none => exact ⟨"Default", by simp [hit]⟩
  | some v =>
      rw [hit] at h5'
      cases v with
      | str s => exact ⟨s, by simp [hit]⟩
      | null => simp at h5'
      | bool b => simp at h5'
      | num n => simp at h5'
      | obj fs2 => simp at h5'
      | arr a => simp at h5'

theorem extract_key_fields_isSome_of_wf (r : Rec) (b : Bool) (h : wfRec r = true) :
    (extract_key_fields r b).isSome = true := by
  obtain ⟨h1, h2, h3, h4, _, _⟩ := wfRec_parts r h
  unfold sectionOkB at h1 h2 h3 h4
  obtain ⟨fsH, hH⟩ := Option.isSome_iff_exists.mp h1
  obtain ⟨fsI, hI⟩ := Option.isSome_iff_exists.mp h2
  obtain ⟨fsD, hD⟩ := Option.isSome_iff_exists.mp h3
  obtain ⟨fsA, hA⟩ := Option.isSome_iff_exists.mp h4
  obtain ⟨s, hIT⟩ := get_instrument_type_str_of_wf r h
  simp [extract_key_fields, hH, hI, hD, hA, hIT, specificConfigOf]

theorem extract_key_fields_for_instrument_isSome_of_wf (r : Rec) (s : String)
    (h : wfRec r = true) :
    (extract_key_fields_for_instrument r (.str s)).isSome = true := by
  obtain ⟨h1, h2, h3, h4, _, _⟩ := wfRec_parts r h
  unfold sectionOkB at h1 h2 h3 h4
  obtain ⟨fsH, hH⟩ := Option.isSome_iff_exists.mp h1
  obtain ⟨fsI, hI⟩ := Option.isSome_iff_exists.mp h2
  obtain ⟨fsD, hD⟩ := Option.isSome_iff_exists.mp h3
  obtain ⟨fsA, hA⟩ := Option.isSome_iff_exists.mp h4
  simp [extract_key_fields_for_instrument, hH, hI, hD, hA, specificConfigOf]

theorem cfiEntryRow_isSome (upi it cfi : JValue) (h : cfiEntryOkB cfi = true) :
    (cfiEntryRow upi it cfi).isSome = true := by
  cases cfi with
  | obj cf =>
      simp only [cfiEntryOkB, Bool.and_eq_true] at h
      obtain ⟨⟨hcat, hgrp⟩, hattrs⟩ := h
      unfold sectionOkB at hcat hgrp
      obtain ⟨fsC, hC⟩ := Option.isSome_iff_exists.mp hcat
      obtain ⟨fsG, hG⟩ := Option.isSome_iff_exists.mp hgrp
      have hattrsSome : ∃ l, pyIter ((lookupS cf "Attributes").getD (.arr [])) = some l ∧
          ∀ a ∈ l, a.isObjB = true := by
        cases hat : lookupS cf "Attributes" with
        | none => exact ⟨[], by simp [pyIter], by simp⟩
        | some v =>
            rw [hat] at hattrs
            cases v with
            | arr l =>
                refine ⟨l, by simp [pyIter], ?_⟩
                intro a ha
                exact List.all_eq_true.mp hattrs a ha
            | null => simp at hattrs
            | bool b => simp at hattrs
            | num n => simp at hattrs
            | str s2 => simp at hattrs
            | obj o => simp at hattrs
      obtain ⟨attrs, hiter, hall⟩ := hattrsSome
      have hcols : (mapO attrTriple attrs.enum).isSome = true := by
        apply mapO_isSome
        intro p hp
        have hmem := snd_mem_of_mem_enum attrs p hp
        have := hall p.2 hmem
        cases hp2 : p.2 with
        | obj o => simp [attrTriple, hp2, asObjItems]
        | null => rw [hp2] at this; simp [JValue.isObjB] at this
        | bool b => rw [hp2] at this; simp [JValue.isObjB] at this
        | num n => rw [hp2] at this; simp [JValue.isObjB] at this
        | str s2 => rw [hp2] at this; simp [JValue.isObjB] at this
        | arr a2 => rw [hp2] at this; simp [JValue.isObjB] at this
      obtain ⟨cols, hcols'⟩ := Option.isSome_iff_exists.mp hcols
      simp [cfiEntryRow, show asObjItems (JValue.obj cf) = some cf from rfl,
        hC, hG, hiter, hcols']
  | null => simp [cfiEntryOkB] at h
  | bool b => simp [cfiEntryOkB] at h
  | num n => simp [cfiEntryOkB] at h
  | str s => simp [cfiEntryOkB] at h
  | arr a => simp [cfiEntryOkB] at h

theorem cfiRowsOfRecord_isSome (i : Nat) (r : Rec) (h : wfRec r = true) :
    (cfiRowsOfRecord i r).isSome = true := by
  obtain ⟨_, h2, h3, _, _, h6⟩ := wfRec_parts r h
  unfold sectionOkB at h2 h3
  obtain ⟨fsI, hI⟩ := Option.isSome_iff_exists.mp h2
  obtain ⟨fsD, hD⟩ := Option.isSome_iff_exists.mp h3
  obtain ⟨s, hIT⟩ := get_instrument_type_str_of_wf r h
  unfold cfiOkB at h6
  rw [hD] at h6
  have h6' : (match lookupS fsD "CFI" with
      | none => true
      | some (JValue.arr l) => l.all cfiEntryOkB
      | some _ => false) = true := h6
  have hcfis : ∃ l, pyIter ((lookupS fsD "CFI").getD (.arr [])) = some l ∧
      ∀ e ∈ l, cfiEntryOkB e = true := by
    cases hc : lookupS fsD "CFI" with
    | none => exact ⟨[], by simp [pyIter, hc], by simp⟩
    | some v =>
        rw [hc] at h6'
        cases v with
        | arr l =>
            refine ⟨l, by simp [pyIter, hc], ?_⟩
            intro e he
            exact List.all_eq_true.mp h6' e he
        | null => simp at h6'
        | bool b => simp at h6'
        | num n => simp at h6'
        | str s2 => simp at h6'
        | obj o => simp at h6'
  obtain ⟨cfis, hiter, hallc⟩ := hcfis
  have hrows : (mapO (cfiEntryRow
      ((lookupS fsI "UPI").getD (.str ("Record_" ++ toString i))) (.str s)) cfis).isSome =
      true :=
    mapO_isSome _ _ (fun e he => cfiEntryRow_isSome _ _ e (hallc e he))
  obtain ⟨rows, hrows'⟩ := Option.isSome_iff_exists.mp hrows
  simp [cfiRowsOfRecord, hI, hIT, hD, hiter, hrows']

theorem extract_cfi_data_isSome (records : List Rec)
    (h : ∀ r ∈ records, wfRec r = true) : (extract_cfi_data records).isSome = true := by
  have hm : (mapO (fun (p : Nat × Rec) => cfiRowsOfRecord p.1 p.2)
      records.enum).isSome = true := by
    apply mapO_isSome
    intro p hp
    exact cfiRowsOfRecord_isSome p.1 p.2 (h p.2 (snd_mem_of_mem_enum records p hp))
  obtain ⟨rss, hrss⟩ := Option.isSome_iff_exists.mp hm
  simp [extract_cfi_data, hrss]

theorem groupGo_isSome_of_wf : ∀ (rs : List Rec) (acc : List (JValue × List Rec)),
    (∀ r ∈ rs, wfRec r = true) → ∃ g, groupGo acc rs = some g
  | [], acc, _ => ⟨acc, rfl⟩
  | r :: rest, acc, h => by
      obtain ⟨s, hIT⟩ := get_instrument_type_str_of_wf r (h r (by simp))
      obtain ⟨g, hg⟩ := groupGo_isSome_of_wf rest (insertGrouped acc (.str s) r)
        (fun r' hr' => h r' (List.mem_cons_of_mem _ hr'))
      exact ⟨g, by simp [groupGo, hIT, hashableB, JValue.isContainerB, hg]⟩

theorem group_keys_str_of_wf (records : List Rec) (g : List (JValue × List Rec))
    (h : ∀ r ∈ records, wfRec r = true)
    (hg : group_by_instrument_type records = some g) :
    ∀ key ∈ g.map Prod.fst, ∃ s, key = .str s := by
  obtain ⟨_, _, hkeys, _, _⟩ := groupGo_char records [] g hg
  intro key hkey
  rw [hkeys] at hkey
  simp only [List.map_nil, List.nil_append] at hkey
  have hkey2 := dedupNew_sub _ _ _ hkey
  obtain ⟨r, hr, hcls⟩ := List.mem_filterMap.mp hkey2
  obtain ⟨s, hs⟩ := get_instrument_type_str_of_wf r (h r hr)
  rw [hs] at hcls
  exact ⟨s, (Option.some.injEq .. ▸ hcls).symm⟩

theorem group_members_sub (records : List Rec) (g : List (JValue × List Rec))
    (hg : group_by_instrument_type records = some g) :
    ∀ p ∈ g, ∀ r ∈ p.2, r ∈ records := by
  obtain ⟨_, hb, hkeys, _, _⟩ := groupGo_char records [] g hg
  have hnd : (g.map Prod.fst).Nodup := by
    rw [hkeys]
    simpa using dedupNew_nodup (records.filterMap get_instrument_type) [] (by simp)
  intro p hp r hr
  have hlook : lookupJ g p.1 = some p.2 := mem_lookupJ_of_nodup hnd hp
  rcases hb p.1 (by simp [lookupJ]) with ⟨_, hn⟩ | hs
  · rw [hlook] at hn
    exact absurd hn (by simp)
  · rw [hlook] at hs
    have : p.2 = records.filter (fun r' => classifierIs r' p.1) :=
      Option.some.injEq .. ▸ hs
    rw [this] at hr
    exact (List.mem_filter.mp hr).1

/-- C2 (counterexample): a record whose `Header` value is the scalar `5`
makes both `smart` and `smart_by_type` workbook construction raise (the
`.get` chain of the classifier fails on a non-mapping), while `full` and
`minimal` succeed on the same record. -/
theorem c2_smart_modes_raise_on_nonmapping_header :
    (create_excel [badHeaderRec] "smart").isNone = true ∧
    (create_excel [badHeaderRec] "smart_by_type").isNone = true ∧
    (create_excel [badHeaderRec] "full").isSome = true ∧
    (create_excel [badHeaderRec] "minimal").isSome = true := by
  decide

/-- C2 (amended): workbook construction is total in the `full` and `minimal`
modes for every record sequence, and total in the `smart` and
`smart_by_type` modes for every sequence of well-formed records (sections
that are mappings when present, a string `Header.InstrumentType` when
present, and well-formed `Derived.CFI` entries); arbitrary record shapes can
make the two smart modes raise. -/
theorem c2_totality_amended (records : List Rec)
    (h : ∀ r ∈ records, wfRec r = true) :
    (create_excel records "smart_by_type").isSome = true ∧
    (create_excel records "smart").isSome = true ∧
    (∀ records' : List Rec, (create_excel records' "full").isSome = true ∧
      (create_excel records' "minimal").isSome = true) := by
  have hm1 : (("smart_by_type" : String) == "smart_by_type") = true := by decide
  have hm2 : (("smart" : String) == "smart_by_type") = false := by decide
  have hm3 : (("smart" : String) == "smart") = true := by decide
  have hm4 : (("full" : String) == "smart_by_type") = false := by decide
  have hm5 : (("full" : String) == "smart") = false := by decide
  have hm6 : (("full" : String) == "full") = true := by decide
  have hm7 : (("minimal" : String) == "smart_by_type") = false := by decide
  have hm8 : (("minimal" : String) == "smart") = false := by decide
  have hm9 : (("minimal" : String) == "full") = false := by decide
  refine ⟨?_, ?_, ?_⟩
  · obtain ⟨g, hg0⟩ := groupGo_isSome_of_wf records [] h
    have hg : group_by_instrument_type records = some g := hg0
    have hkeys := group_keys_str_of_wf records g h hg
    have hsub := group_members_sub records g hg
    have hsheets : (mapO typeSheetOf g).isSome = true := by
      apply mapO_isSome
      intro p hp
      obtain ⟨s, hs⟩ := hkeys p.1 (List.mem_map.mpr ⟨p, hp, rfl⟩)
      have hrows : (mapO (fun r => extract_key_fields_for_instrument r p.1) p.2).isSome =
          true := by
        apply mapO_isSome
        intro r hr
        rw [hs]
        exact extract_key_fields_for_instrument_isSome_of_wf r s (h r (hsub p hp r hr))
      obtain ⟨rows, hrows'⟩ := Option.isSome_iff_exists.mp hrows
      have hname : sheetNameOf p.1 = some (sanitizeSheetName s) := by
        rw [hs]
        rfl
      simp [typeSheetOf, hrows', hname]
    obtain ⟨sheets, hsheets'⟩ := Option.isSome_iff_exists.mp hsheets
    obtain ⟨cfi, hcfi'⟩ := Option.isSome_iff_exists.mp (extract_cfi_data_isSome records h)
    simp [create_excel, hm1, hg, hsheets', hcfi']
  · have hmain : (mapO (fun r => extract_key_fields r true) records).isSome = true := by
      apply mapO_isSome
      intro r hr
      exact extract_key_fields_isSome_of_wf r true (h r hr)
    obtain ⟨main, hmain'⟩ := Option.isSome_iff_exists.mp hmain
    obtain ⟨cfi, hcfi'⟩ := Option.isSome_iff_exists.mp (extract_cfi_data_isSome records h)
    simp [create_excel, hm2, hm3, hmain', hcfi']
  · intro records'
    constructor
    · simp [create_excel, hm4, hm5, hm6]
    · simp [create_excel, hm7, hm8, hm9]

/-- C2 (amended, witness): instantiated at a concrete well-formed record. -/
theorem c2_totality_amended_witness :
    (create_excel [futureExpiryRec] "smart_by_type").isSome = true ∧
    (create_excel [futureExpiryRec] "smart").isSome = true := by
  have h := c2_totality_amended [futureExpiryRec] (by decide)
  exact ⟨h.1, h.2.1⟩
